import Mathlib

/-!
# Verification of the swap-detection and valuation engine (`swap_analysis.py`)

Shallow embedding of the wallet-analyzer repository's core: `SwapAnalyzer`
(grouping transfer rows by transaction hash, classifying outgoing/incoming
legs, aggregating the spent cost basis, price-oracle lookups with
per-group failure recovery, and persisting enrichment back onto rows).

Modelling conventions:
* SQLite `REAL`/Python `Decimal` monetary arithmetic is modelled with `ℚ`
  (the Python code performs all aggregation in `Decimal`, exact for the
  claims at hand; `float(...)` at the persistence boundary is modelled as
  the identity on `ℚ`).
* The CoinGecko client (network + cache) is modelled as a pure `Oracle` of
  three functions returning `Except`; the client-side caches are
  semantically transparent for a pure oracle.
* `datetime.fromisoformat` (Python stdlib, not repository code) is
  modelled as an uninterpreted parser `Env.parseIso`; `datetime.utcnow()`
  is `Env.now`.  Timestamps are unix integers.
* The transactions table is a `List Row`; `SELECT ... ORDER BY
  block_timestamp` is modelled as a stable insertion sort with SQLite's
  `NULL`-first ascending semantics (byte-wise text comparison).
* Oracle calls are logged in a `Query` list so that "no price-oracle call
  was made" is expressible.
-/

namespace WalletAnalyzer

/- Batteries marks the arithmetic core of `Rat` `@[irreducible]`, which
blocks `rfl`/`decide` evaluation of the concrete fixtures below; restore
the default reducibility locally so witnesses evaluate in the kernel. -/
attribute [local semireducible] Rat.mul Rat.add Rat.sub Rat.inv

/-- One row of the `transactions` table (the columns read or written by
`SwapAnalyzer`): identity columns plus the swap-enrichment columns. -/
structure Row where
  id : Nat
  chain : String
  txHash : String
  blockTimestamp : Option String
  fromAddress : Option String
  toAddress : Option String
  asset : Option String
  value : Option ℚ
  category : Option String
  contractAddress : Option String
  isSwap : Bool
  swapSpentAsset : Option String
  swapSpentAmount : Option ℚ
  swapSpentUsd : Option ℚ
  swapBtcPriceAtPurchase : Option ℚ
  swapBtcAmount : Option ℚ
  swapBtcPriceCurrent : Option ℚ
  swapBtcValueUsd : Option ℚ
deriving Repr, DecidableEq

/-- External non-repository collaborators of the analyzer that are not the
price oracle: the ISO-8601 timestamp parser (`datetime.fromisoformat`,
with the `Z` suffix handling of `_parse_timestamp`) and the wall clock
(`datetime.utcnow`). -/
structure Env where
  parseIso : String → Option Int
  now : Int

/-- The CoinGecko client interface used by `SwapAnalyzer`
(`get_current_price`, `get_price_at_timestamp`, `get_coin_id_by_contract`),
as a pure oracle; `Except.error` models a raised `CoinGeckoError`. -/
structure Oracle where
  currentPrice : String → Except String ℚ
  priceAt : String → Int → Except String ℚ
  coinIdByContract : String → String → Except String String

/-- A record of one oracle call, for reasoning about which lookups a run
performs. -/
inductive Query where
  | currentPrice (coinId : String)
  | priceAt (coinId : String) (ts : Int)
  | coinIdByContract (platform contract : String)
deriving Repr, DecidableEq

/-- The summary dictionary returned by `SwapAnalyzer.analyze`. -/
structure Summary where
  swapsDetected : ℚ
  btcAmount : ℚ
  btcValueUsd : ℚ
  btcPriceCurrent : ℚ
deriving Repr, DecidableEq

/-- `SpentComponent` dataclass. -/
structure SpentComponent where
  asset : String
  amount : ℚ
  usdPrice : ℚ
deriving Repr, DecidableEq

/-- `SpentComponent.usd_value`. -/
def SpentComponent.usdValue (c : SpentComponent) : ℚ := c.amount * c.usdPrice

/-- `SYMBOL_TO_COINGECKO_ID` module constant. -/
def SYMBOL_TO_COINGECKO_ID : List (String × String) :=
  [("ETH", "ethereum"), ("WETH", "weth"), ("USDC", "usd-coin"),
   ("USDT", "tether"), ("DAI", "dai"), ("WBTC", "wrapped-bitcoin"),
   ("BTC", "bitcoin")]

/-- `COINGECKO_PLATFORMS_BY_CHAIN` from `config.py`. -/
def COINGECKO_PLATFORMS_BY_CHAIN : List (String × String) :=
  [("ethereum", "ethereum"), ("base", "base"), ("arbitrum", "arbitrum-one")]

/-- Python truthiness of an optional string (`if x:`): `None` and `""` are
falsy. -/
def truthyStr : Option String → Bool
  | none => false
  | some s => s ≠ ""

/-- Python `str.lower()` (character-wise; the repository only lower-cases
ASCII hex addresses and chain names). -/
def strLower (s : String) : String := ⟨s.data.map Char.toLower⟩

/-- Python `str.upper()` (character-wise, used on asset symbols). -/
def strUpper (s : String) : String := ⟨s.data.map Char.toUpper⟩

/-- Lexicographic string comparison (SQLite's byte-wise `BINARY` collation
on `TEXT`, codepoint order on the ASCII timestamps stored here). -/
def strLtB (s t : String) : Bool :=
  go s.data t.data
where
  go : List Char → List Char → Bool
  | [], [] => false
  | [], _ :: _ => true
  | _ :: _, [] => false
  | a :: as, b :: bs => if a < b then true else if b < a then false else go as bs

/-- `_parse_timestamp` applied to a nullable column value: `if not ts:
return None`, then the ISO parse (which returns `None` on `ValueError`). -/
def parseTimestampField (env : Env) (ts : Option String) : Option Int :=
  match ts with
  | none => none
  | some s => if s = "" then none else env.parseIso s

/-- `SwapAnalyzer._tx_timestamp`: first row in group order whose
`block_timestamp` parses. -/
def txTimestamp (env : Env) : List Row → Option Int
  | [] => none
  | r :: rs =>
    match parseTimestampField env r.blockTimestamp with
    | some t => some t
    | none => txTimestamp env rs

/-- `SwapAnalyzer._is_incoming`: `(to_address or "").lower() == wallet`
(the analyzer's wallet is stored lower-cased). -/
def isIncoming (wallet : String) (r : Row) : Bool :=
  strLower (r.toAddress.getD "") == wallet

/-- `SwapAnalyzer._is_outgoing`: `(from_address or "").lower() == wallet`. -/
def isOutgoing (wallet : String) (r : Row) : Bool :=
  strLower (r.fromAddress.getD "") == wallet

/-- `SwapAnalyzer._resolve_coin_id` together with the contract branch of
`CoinGeckoClient.get_coin_id_by_contract`; the second component is the
list of oracle calls issued.  `if contract_address:` is Python
truthiness. -/
def resolveCoinId (o : Oracle) (chain : String)
    (asset contractAddress : Option String) :
    Except String String × List Query :=
  let symbol := strUpper (asset.getD "")
  if truthyStr contractAddress then
    let c := contractAddress.getD ""
    match COINGECKO_PLATFORMS_BY_CHAIN.lookup (strLower chain) with
    | none => (.error ("Unsupported chain for CoinGecko mapping: " ++ chain), [])
    | some platform =>
      (o.coinIdByContract platform c, [.coinIdByContract platform c])
  else
    match SYMBOL_TO_COINGECKO_ID.lookup symbol with
    | some coinId => (.ok coinId, [])
    | none => (.error "Unable to resolve CoinGecko id for asset", [])

/-- An outgoing-leg aggregation key: `(row["asset"], row["contract_address"])`. -/
abbrev SpendKey := Option String × Option String

/-- The state of the aggregation loop of `_build_spent_components`:
the `defaultdict` of summed amounts (`grouped`), the dict-insertion order
of its keys, and `chain_by_key` (last writer wins). -/
structure SpendAgg where
  keys : List SpendKey
  amount : SpendKey → ℚ
  chain : SpendKey → String

/-- Initial aggregation state (`defaultdict(lambda: Decimal(0))`). -/
def emptyAgg : SpendAgg := ⟨[], fun _ => 0, fun _ => ""⟩

/-- One iteration of the aggregation loop in `_build_spent_components`:
skip `None` and non-positive values, otherwise add to the key's total and
record the leg's chain. -/
def aggStep (agg : SpendAgg) (r : Row) : SpendAgg :=
  match r.value with
  | none => agg
  | some v =>
    if v ≤ 0 then agg
    else
      let k : SpendKey := (r.asset, r.contractAddress)
      { keys := if k ∈ agg.keys then agg.keys else agg.keys ++ [k]
        amount := fun k' => if k' = k then agg.amount k' + v else agg.amount k'
        chain := fun k' => if k' = k then r.chain else agg.chain k' }

/-- The aggregation loop of `_build_spent_components` over the outgoing
legs. -/
def buildAgg (outgoing : List Row) : SpendAgg :=
  outgoing.foldl aggStep emptyAgg

/-- The component-building loop of `_build_spent_components`: for each
aggregation key (in dict order) resolve the coin id and look up its price
at the group timestamp; the first raised `CoinGeckoError` aborts the whole
loop (exception propagation). -/
def buildComponentsLoop (o : Oracle) (agg : SpendAgg) (ts : Int) :
    List SpendKey → Except String (List SpentComponent) × List Query
  | [] => (.ok [], [])
  | k :: ks =>
    let (res, q1) := resolveCoinId o (agg.chain k) k.1 k.2
    match res with
    | .error e => (.error e, q1)
    | .ok coinId =>
      match o.priceAt coinId ts with
      | .error e => (.error e, q1 ++ [.priceAt coinId ts])
      | .ok price =>
        let (rest, q2) := buildComponentsLoop o agg ts ks
        match rest with
        | .error e => (.error e, q1 ++ [.priceAt coinId ts] ++ q2)
        | .ok comps =>
          (.ok ({ asset := k.1.getD "", amount := agg.amount k,
                  usdPrice := price } :: comps),
           q1 ++ [.priceAt coinId ts] ++ q2)

/-- `SwapAnalyzer._build_spent_components`. -/
def buildSpentComponents (o : Oracle) (outgoing : List Row) (ts : Int) :
    Except String (List SpentComponent) × List Query :=
  buildComponentsLoop o (buildAgg outgoing) ts (buildAgg outgoing).keys

/-- A batched `UPDATE transactions ... WHERE id = ?`: every stored row
whose `id` is listed receives the update. -/
def updateRows (db : List Row) (ids : List Nat) (f : Row → Row) : List Row :=
  db.map (fun r => if r.id ∈ ids then f r else r)

/-- `SwapAnalyzer._mark_outgoing`: `SET is_swap = 1` for the outgoing
legs' ids. -/
def markOutgoing (db : List Row) (outgoing : List Row) : List Row :=
  updateRows db (outgoing.map (·.id)) (fun r => { r with isSwap := true })

/-- The seven enrichment values `_enrich_incoming` writes (other than
`is_swap = 1`). -/
structure Enrichment where
  spentAsset : Option String
  spentAmount : Option ℚ
  spentUsd : Option ℚ
  btcPriceAtPurchase : Option ℚ
  btcAmount : Option ℚ
  btcPriceCurrent : Option ℚ
  btcValueUsd : Option ℚ
deriving Repr, DecidableEq

/-- The value computation of `_enrich_incoming`: the single/multi spent
asset distinction and the float conversions (identity on `ℚ`); note that
`swap_btc_price_current` and `swap_btc_value_usd` are persisted only when
`btc_amount` is not `None`. -/
def mkEnrichment (components : List SpentComponent)
    (totalUsd btcPriceAtPurchase btcAmount : Option ℚ)
    (btcPriceCurrent : ℚ) : Enrichment :=
  let spentAsset : Option String :=
    match components with
    | [c] => some c.asset
    | [] => none
    | _ => some "MULTI"
  let spentAmount : Option ℚ :=
    match components with
    | [c] => some c.amount
    | _ => none
  { spentAsset := spentAsset
    spentAmount := spentAmount
    spentUsd := totalUsd
    btcPriceAtPurchase := btcPriceAtPurchase
    btcAmount := btcAmount
    btcPriceCurrent :=
      match btcAmount with
      | some _ => some btcPriceCurrent
      | none => none
    btcValueUsd := btcAmount.map (· * btcPriceCurrent) }

/-- The `UPDATE` statement of `_enrich_incoming` applied to one row:
`is_swap = 1` plus the seven enrichment columns (overwritten). -/
def applyEnrichment (e : Enrichment) (r : Row) : Row :=
  { r with
    isSwap := true
    swapSpentAsset := e.spentAsset
    swapSpentAmount := e.spentAmount
    swapSpentUsd := e.spentUsd
    swapBtcPriceAtPurchase := e.btcPriceAtPurchase
    swapBtcAmount := e.btcAmount
    swapBtcPriceCurrent := e.btcPriceCurrent
    swapBtcValueUsd := e.btcValueUsd }

/-- `SwapAnalyzer._enrich_incoming` as a database update. -/
def enrichIncoming (db : List Row) (incoming : List Row) (e : Enrichment) :
    List Row :=
  updateRows db (incoming.map (·.id)) (applyEnrichment e)

/-- The rows sharing one transaction hash, in load order: the list a
`defaultdict(list)` accumulates for that hash in `_group_transactions`. -/
def groupRows (recs : List Row) (h : String) : List Row :=
  recs.filter (fun r => r.txHash = h)

/-- The outgoing partition of a group. -/
def outgoingLegs (wallet : String) (rows : List Row) : List Row :=
  rows.filter (fun r => isOutgoing wallet r)

/-- The incoming partition of a group. -/
def incomingLegs (wallet : String) (rows : List Row) : List Row :=
  rows.filter (fun r => isIncoming wallet r)

/-- The per-group valuation data computed in the body of the group loop of
`analyze` (lines 95–126): reference timestamp, spent components (empty
after a caught `CoinGeckoError`), USD total, historical BTC price and BTC
amount, plus the oracle calls issued. -/
structure GroupCalc where
  components : List SpentComponent
  totalUsd : Option ℚ
  btcPriceAtPurchase : Option ℚ
  btcAmount : Option ℚ
  log : List Query

/-- The valuation part of one iteration of the group loop of `analyze`. -/
def calcGroup (env : Env) (o : Oracle) (wallet : String) (recs : List Row)
    (h : String) : GroupCalc :=
  let rows := groupRows recs h
  let ts := (txTimestamp env rows).getD env.now
  let (res, q1) := buildSpentComponents o (outgoingLegs wallet rows) ts
  let components : List SpentComponent :=
    match res with
    | .error _ => []
    | .ok cs => cs
  if components.isEmpty then
    { components := [], totalUsd := none, btcPriceAtPurchase := none,
      btcAmount := none, log := q1 }
  else
    let btcPrice? : Option ℚ :=
      match o.priceAt "bitcoin" ts with
      | .error _ => none
      | .ok p => some p
    let totalUsd : ℚ := (components.map SpentComponent.usdValue).sum
    let btcAmount : Option ℚ :=
      match btcPrice? with
      | some p => if 0 < p then some (totalUsd / p) else none
      | none => none
    { components := components, totalUsd := some totalUsd,
      btcPriceAtPurchase := btcPrice?, btcAmount := btcAmount,
      log := q1 ++ [.priceAt "bitcoin" ts] }

/-- The running state of the group loop of `analyze`: the database (the
connection the writes go through), the accumulated BTC amount, the swap
count and the oracle-call log. -/
structure RunState where
  db : List Row
  totalBtc : ℚ
  swaps : Nat
  log : List Query

/-- One iteration of `for tx_hash, rows in grouped.items():` in
`analyze`: skip groups with an empty partition, otherwise value the group,
mark the outgoing legs and enrich the incoming legs. -/
def stepGroup (env : Env) (o : Oracle) (wallet : String) (recs : List Row)
    (btcPriceCurrent : ℚ) (s : RunState) (h : String) : RunState :=
  let rows := groupRows recs h
  let outgoing := outgoingLegs wallet rows
  let incoming := incomingLegs wallet rows
  if outgoing.isEmpty || incoming.isEmpty then s
  else
    let c := calcGroup env o wallet recs h
    let e := mkEnrichment c.components c.totalUsd c.btcPriceAtPurchase
      c.btcAmount btcPriceCurrent
    let db1 := markOutgoing s.db outgoing
    let db2 := enrichIncoming db1 incoming e
    { db := db2
      totalBtc :=
        match c.btcAmount with
        | some a => if a ≠ 0 then s.totalBtc + a else s.totalBtc
        | none => s.totalBtc
      swaps := s.swaps + 1
      log := s.log ++ c.log }

/-- Accumulating the `defaultdict` keys of `_group_transactions`: a new
transaction hash is appended on first sight. -/
def keysStep (acc : List String) (r : Row) : List String :=
  if r.txHash ∈ acc then acc else acc ++ [r.txHash]

/-- The iteration order of `grouped.items()`: transaction hashes in order
of first occurrence (Python dict insertion order). -/
def keysInOrder (recs : List Row) : List String :=
  recs.foldl keysStep []

/-- The `ORDER BY block_timestamp` comparison: SQLite sorts `NULL` first
ascending, text byte-wise. -/
def tsLe (a b : Row) : Bool :=
  match a.blockTimestamp, b.blockTimestamp with
  | none, _ => true
  | some _, none => false
  | some s, some t => s == t || strLtB s t

/-- `tsLe` as a relation for `List.insertionSort`. -/
def rowLe (a b : Row) : Prop := tsLe a b = true

instance : DecidableRel rowLe :=
  fun a b => inferInstanceAs (Decidable (tsLe a b = true))

/-- The row sequence `_group_transactions` consumes: `SELECT ... ORDER BY
block_timestamp`, modelled as a stable sort of the stored rows. -/
def sortByTs (db : List Row) : List Row :=
  List.insertionSort rowLe db

/-- Whether a group qualifies as a swap: both partitions non-empty
(`if not outgoing or not incoming: continue`). -/
def qualifies (wallet : String) (recs : List Row) (h : String) : Bool :=
  !(outgoingLegs wallet (groupRows recs h)).isEmpty &&
    !(incomingLegs wallet (groupRows recs h)).isEmpty

/-- The zero summary returned when the store holds no rows. -/
def zeroSummary : Summary :=
  { swapsDetected := 0, btcAmount := 0, btcValueUsd := 0, btcPriceCurrent := 0 }

/-- `SwapAnalyzer.analyze`: returns the summary, the updated stored rows
and the oracle calls made; `Except.error` models an uncaught
`CoinGeckoError` (the run-level `get_current_price` call is not guarded
by any `try`). -/
def analyze (env : Env) (o : Oracle) (wallet : String) (db : List Row) :
    Except String (Summary × List Row × List Query) :=
  let recs := sortByTs db
  if recs.isEmpty then .ok (zeroSummary, db, [])
  else
    match o.currentPrice "bitcoin" with
    | .error e => .error e
    | .ok btcPriceCurrent =>
      let s0 : RunState := ⟨db, 0, 0, [.currentPrice "bitcoin"]⟩
      let s := (keysInOrder recs).foldl
        (stepGroup env o wallet recs btcPriceCurrent) s0
      .ok ({ swapsDetected := (s.swaps : ℚ), btcAmount := s.totalBtc,
             btcValueUsd := s.totalBtc * btcPriceCurrent,
             btcPriceCurrent := btcPriceCurrent }, s.db, s.log)

/-- `SwapAnalyzer.__init__` followed by `analyze`: `if not
wallet_address: raise ValueError(...)`, then `self.wallet_address =
wallet_address.lower()`. -/
def runAnalysis (env : Env) (o : Oracle) (walletAddress : String)
    (db : List Row) : Except String (Summary × List Row × List Query) :=
  if walletAddress = "" then .error "wallet_address is required"
  else analyze env o (strLower walletAddress) db

/-- The enrichment values group `h` writes onto its incoming legs. -/
def groupEnrichment (env : Env) (o : Oracle) (wallet : String)
    (recs : List Row) (btcPriceCurrent : ℚ) (h : String) : Enrichment :=
  let c := calcGroup env o wallet recs h
  mkEnrichment c.components c.totalUsd c.btcPriceAtPurchase c.btcAmount
    btcPriceCurrent

/-- What one run of `analyze` does to a single stored row (for a store
with unique row ids): rows of non-qualifying groups are untouched,
outgoing legs are marked, incoming legs are marked and enriched. -/
def rowTransform (env : Env) (o : Oracle) (wallet : String)
    (recs : List Row) (btcPriceCurrent : ℚ) (r : Row) : Row :=
  if qualifies wallet recs r.txHash then
    let r1 := if isOutgoing wallet r then { r with isSwap := true } else r
    if isIncoming wallet r then
      applyEnrichment
        (groupEnrichment env o wallet recs btcPriceCurrent r.txHash) r1
    else r1
  else r

/-- The `spentUsd` a run attributes to group `h` (absent when the group
does not qualify or its spend aggregation was abandoned). -/
def spentUsdPerGroup (env : Env) (o : Oracle) (wallet : String)
    (recs : List Row) (h : String) : Option ℚ :=
  if qualifies wallet recs h then (calcGroup env o wallet recs h).totalUsd
  else none

/-- Whether a leg contributes to spend aggregation: non-null positive
value. -/
def validAmount (r : Row) : Bool :=
  match r.value with
  | none => false
  | some v => decide (0 < v)

/-- The summed value of the valid legs with aggregation key `k`. -/
def sumAmounts (legs : List Row) (k : SpendKey) : ℚ :=
  ((legs.filter (fun r =>
      validAmount r && ((r.asset, r.contractAddress) = k))).map
    (fun r => r.value.getD 0)).sum

/-- The spent component one aggregation key yields when its id resolution
and price lookup both succeed (`none` models the raised
`CoinGeckoError`). -/
def keyComponent (o : Oracle) (agg : SpendAgg) (ts : Int) (k : SpendKey) :
    Option SpentComponent :=
  match (resolveCoinId o (agg.chain k) k.1 k.2).1 with
  | .error _ => none
  | .ok coinId =>
    match o.priceAt coinId ts with
    | .error _ => none
    | .ok price => some { asset := k.1.getD "", amount := agg.amount k,
                          usdPrice := price }

/-- The USD total `analyze` attributes to a group, as a function of the
outgoing legs and the reference timestamp alone: absent when the
component build fails (caught `CoinGeckoError`) or produces no
components. -/
def groupTotalUsd (o : Oracle) (outgoing : List Row) (ts : Int) : Option ℚ :=
  let components : List SpentComponent :=
    match (buildSpentComponents o outgoing ts).1 with
    | .error _ => []
    | .ok cs => cs
  if components.isEmpty then none
  else some ((components.map SpentComponent.usdValue).sum)

/-! ## Concrete fixtures (stores, oracles, environments)

Small concrete instances used to instantiate the general theorems and to
exhibit counterexamples. -/

/-- A template row with every nullable column absent. -/
def rowT : Row :=
  { id := 0, chain := "ethereum", txHash := "h", blockTimestamp := none,
    fromAddress := none, toAddress := none, asset := none, value := none,
    category := none, contractAddress := none, isSwap := false,
    swapSpentAsset := none, swapSpentAmount := none, swapSpentUsd := none,
    swapBtcPriceAtPurchase := none, swapBtcAmount := none,
    swapBtcPriceCurrent := none, swapBtcValueUsd := none }

/-- Fixture environment: `"T1"` parses to unix time 100, `"T2"` to 200,
wall clock at 999. -/
def envW : Env :=
  { parseIso := fun s =>
      if s = "T1" then some 100 else if s = "T2" then some 200 else none
    now := 999 }

/-- Fixture oracle: BTC now at 30000; at time 100 ETH=10, BTC=25000,
USDC=1; the USDC contract `0xc` resolves on the ethereum platform. -/
def oW : Oracle :=
  { currentPrice := fun c =>
      if c = "bitcoin" then .ok 30000 else .error "no current price"
    priceAt := fun c ts =>
      if c = "ethereum" ∧ ts = 100 then .ok 10
      else if c = "bitcoin" ∧ ts = 100 then .ok 25000
      else if c = "usd-coin" ∧ ts = 100 then .ok 1
      else .error "no historical price"
    coinIdByContract := fun pl ct =>
      if pl = "ethereum" ∧ ct = "0xc" then .ok "usd-coin"
      else .error "unknown contract" }

/-- Group `h1`: outgoing leg (2 ETH spent). -/
def rO : Row :=
  { rowT with
    id := 1
    txHash := "h1"
    blockTimestamp := some "T1"
    fromAddress := some "0xW"
    toAddress := some "0xD"
    asset := some "ETH"
    value := some 2 }

/-- Group `h1`: incoming leg. -/
def rI : Row :=
  { rowT with
    id := 2
    txHash := "h1"
    blockTimestamp := some "T1"
    fromAddress := some "0xD"
    toAddress := some "0xW"
    asset := some "TOK"
    value := some 5 }

/-- Group `h1`: a leg in neither partition (dex-internal transfer). -/
def rN : Row :=
  { rowT with
    id := 3
    txHash := "h1"
    blockTimestamp := some "T1"
    fromAddress := some "0xA"
    toAddress := some "0xB"
    asset := some "X"
    value := some 1 }

/-- Group `h2`: outgoing leg with an unresolvable asset symbol. -/
def rF : Row :=
  { rowT with
    id := 4
    txHash := "h2"
    blockTimestamp := some "T1"
    fromAddress := some "0xW"
    toAddress := some "0xD"
    asset := some "UNKNOWN"
    value := some 3 }

/-- Group `h2`: incoming leg. -/
def rFi : Row :=
  { rowT with
    id := 5
    txHash := "h2"
    blockTimestamp := some "T1"
    fromAddress := some "0xD"
    toAddress := some "0xW"
    asset := some "TOK2"
    value := some 7 }

/-- Group `h3`: incoming-only (no outgoing partition, not a swap). -/
def rSkip : Row :=
  { rowT with
    id := 6
    txHash := "h3"
    blockTimestamp := some "T1"
    fromAddress := some "0xF"
    toAddress := some "0xW"
    asset := some "ETH"
    value := some 1 }

/-- Group `h4`: first outgoing leg (ETH). -/
def rM1 : Row :=
  { rowT with
    id := 7
    txHash := "h4"
    blockTimestamp := some "T1"
    fromAddress := some "0xW"
    toAddress := some "0xD"
    asset := some "ETH"
    value := some 1 }

/-- Group `h4`: second outgoing leg (USDC by contract). -/
def rM2 : Row :=
  { rowT with
    id := 8
    txHash := "h4"
    blockTimestamp := some "T1"
    fromAddress := some "0xW"
    toAddress := some "0xD"
    asset := some "USDC"
    value := some 100
    contractAddress := some "0xc" }

/-- Group `h4`: incoming leg. -/
def rM3 : Row :=
  { rowT with
    id := 9
    txHash := "h4"
    blockTimestamp := some "T1"
    fromAddress := some "0xD"
    toAddress := some "0xW"
    asset := some "TOK3"
    value := some 4 }

/-- The fixture store. -/
def dbW : List Row := [rO, rI, rN, rF, rFi, rSkip, rM1, rM2, rM3]

/-- The analysis pass over the fixture store. -/
def resW : Except String (Summary × List Row × List Query) :=
  analyze envW oW "0xw" dbW

/-- The summary of the fixture run. -/
def sumOfW : Summary :=
  match resW with
  | .ok (s, _, _) => s
  | .error _ => zeroSummary

/-- The stored rows after the fixture run. -/
def rowsOfW : List Row :=
  match resW with
  | .ok (_, rows, _) => rows
  | .error _ => []

/-- The oracle-call log of the fixture run. -/
def logOfW : List Query :=
  match resW with
  | .ok (_, _, l) => l
  | .error _ => []

/-- The row at position `i` of the store after the fixture run. -/
def rowAtW (i : Nat) : Row := (rowsOfW[i]?).getD rowT

/-- Permutation fixture A: incoming leg carrying the earlier timestamp. -/
def rA1 : Row :=
  { rowT with
    id := 1
    txHash := "g"
    blockTimestamp := some "T1"
    fromAddress := some "0xD"
    toAddress := some "0xW"
    asset := some "TOK"
    value := some 5 }

/-- Permutation fixture A: outgoing ETH leg with the later timestamp. -/
def rA2 : Row :=
  { rowT with
    id := 2
    txHash := "g"
    blockTimestamp := some "T2"
    fromAddress := some "0xW"
    toAddress := some "0xD"
    asset := some "ETH"
    value := some 1 }

/-- Oracle for permutation fixture A: ETH is worth 10 at time 100 and 20
at time 200. -/
def o7 : Oracle :=
  { currentPrice := fun _ => .error "unused"
    priceAt := fun c ts =>
      if c = "ethereum" ∧ ts = 100 then .ok 10
      else if c = "ethereum" ∧ ts = 200 then .ok 20
      else .error "no price"
    coinIdByContract := fun _ _ => .error "unused" }

/-- Permutation fixture B: outgoing leg of contract `0xc` on ethereum. -/
def rB1 : Row :=
  { rowT with
    id := 1
    txHash := "g"
    chain := "ethereum"
    fromAddress := some "0xW"
    toAddress := some "0xD"
    asset := some "XX"
    value := some 1
    contractAddress := some "0xc" }

/-- Permutation fixture B: same asset and contract but on the base chain. -/
def rB2 : Row :=
  { rB1 with
    id := 2
    chain := "base" }

/-- Permutation fixture B: incoming leg. -/
def rB3 : Row :=
  { rowT with
    id := 3
    txHash := "g"
    fromAddress := some "0xD"
    toAddress := some "0xW"
    asset := some "TOK"
    value := some 2 }

/-- Oracle for permutation fixture B: the contract resolves to different
coins (with different prices) on the two platforms. -/
def o7b : Oracle :=
  { currentPrice := fun _ => .error "unused"
    priceAt := fun c ts =>
      if c = "coinA" ∧ ts = 999 then .ok 7
      else if c = "coinB" ∧ ts = 999 then .ok 5
      else .error "no price"
    coinIdByContract := fun pl ct =>
      if pl = "ethereum" ∧ ct = "0xc" then .ok "coinA"
      else if pl = "base" ∧ ct = "0xc" then .ok "coinB"
      else .error "unknown" }

/-- An oracle whose current-price endpoint is down. -/
def oBad : Oracle :=
  { currentPrice := fun _ => .error "price feed down"
    priceAt := fun _ _ => .error "price feed down"
    coinIdByContract := fun _ _ => .error "price feed down" }

/-! ## Helper lemmas: batched updates and id-based targeting -/

theorem updateRows_getElem? (db : List Row) (ids : List Nat) (f : Row → Row)
    (i : Nat) :
    (updateRows db ids f)[i]? =
      (db[i]?).map (fun r => if r.id ∈ ids then f r else r) := by
  simp [updateRows]

/-- With unique row ids, a row's id occurs among the ids of a filtered
selection of the (permuted) stored rows exactly when the row itself passes
the filter. -/
theorem mem_filter_ids_iff {recs db : List Row} (hperm : recs.Perm db)
    (hnd : (db.map (fun r => r.id)).Nodup) {r : Row} (hr : r ∈ db)
    (p : Row → Bool) :
    r.id ∈ ((recs.filter p).map (fun x => x.id)) ↔ p r = true := by
  constructor
  · intro hmem
    obtain ⟨x, hx, hxid⟩ := List.mem_map.mp hmem
    obtain ⟨hxrecs, hpx⟩ := List.mem_filter.mp hx
    have hxdb : x ∈ db := hperm.subset hxrecs
    have : x = r := List.inj_on_of_nodup_map hnd hxdb hr hxid
    exact this ▸ hpx
  · intro hpr
    exact List.mem_map.mpr ⟨r, List.mem_filter.mpr ⟨hperm.mem_iff.mpr hr, hpr⟩, rfl⟩

/-! ## Helper lemmas: the run only rewrites enrichment fields -/

/-- A row function that does not touch the identity columns (everything a
second analysis pass reads). -/
structure BasePreserving (g : Row → Row) : Prop where
  id : ∀ r, (g r).id = r.id
  chain : ∀ r, (g r).chain = r.chain
  txHash : ∀ r, (g r).txHash = r.txHash
  blockTimestamp : ∀ r, (g r).blockTimestamp = r.blockTimestamp
  fromAddress : ∀ r, (g r).fromAddress = r.fromAddress
  toAddress : ∀ r, (g r).toAddress = r.toAddress
  asset : ∀ r, (g r).asset = r.asset
  value : ∀ r, (g r).value = r.value
  category : ∀ r, (g r).category = r.category
  contractAddress : ∀ r, (g r).contractAddress = r.contractAddress

theorem basePreserving_rowTransform (env : Env) (o : Oracle) (wallet : String)
    (recs : List Row) (p : ℚ) :
    BasePreserving (rowTransform env o wallet recs p) := by
  constructor <;>
    (intro r; unfold rowTransform; split <;> [skip; rfl] <;>
      dsimp only <;> split <;> split <;> rfl)

theorem applyEnrichment_eq_of_base {a b : Row} (e : Enrichment)
    (hid : a.id = b.id) (hch : a.chain = b.chain) (htx : a.txHash = b.txHash)
    (hts : a.blockTimestamp = b.blockTimestamp)
    (hfrom : a.fromAddress = b.fromAddress) (hto : a.toAddress = b.toAddress)
    (has : a.asset = b.asset) (hv : a.value = b.value)
    (hcat : a.category = b.category)
    (hca : a.contractAddress = b.contractAddress) :
    applyEnrichment e a = applyEnrichment e b := by
  cases a; cases b
  simp only at hid hch htx hts hfrom hto has hv hcat hca
  simp [applyEnrichment, hid, hch, htx, hts, hfrom, hto, has, hv, hcat, hca]

/-! ## Helper lemmas: group-key iteration order -/

theorem keysStep_foldl_mem (l : List Row) (acc : List String) (a : String) :
    a ∈ l.foldl keysStep acc ↔ a ∈ acc ∨ ∃ r ∈ l, r.txHash = a := by
  induction l generalizing acc with
  | nil => simp
  | cons r l ih =>
    rw [List.foldl_cons, ih]
    unfold keysStep
    by_cases hmem : r.txHash ∈ acc
    · simp only [if_pos hmem]
      constructor
      · rintro (h | h)
        · exact Or.inl h
        · exact Or.inr (h.imp fun x hx => ⟨List.mem_cons_of_mem r hx.1, hx.2⟩)
      · rintro (h | ⟨x, hx, hxa⟩)
        · exact Or.inl h
        · rcases List.mem_cons.mp hx with rfl | hxl
          · exact Or.inl (hxa ▸ hmem)
          · exact Or.inr ⟨x, hxl, hxa⟩
    · simp only [if_neg hmem, List.mem_append, List.mem_singleton]
      constructor
      · rintro ((h | h) | h)
        · exact Or.inl h
        · exact Or.inr ⟨r, List.mem_cons_self .., h.symm⟩
        · exact Or.inr (h.imp fun x hx => ⟨List.mem_cons_of_mem r hx.1, hx.2⟩)
      · rintro (h | ⟨x, hx, hxa⟩)
        · exact Or.inl (Or.inl h)
        · rcases List.mem_cons.mp hx with rfl | hxl
          · exact Or.inl (Or.inr hxa.symm)
          · exact Or.inr ⟨x, hxl, hxa⟩

theorem keysStep_foldl_nodup (l : List Row) (acc : List String)
    (h : acc.Nodup) : (l.foldl keysStep acc).Nodup := by
  induction l generalizing acc with
  | nil => simpa using h
  | cons r l ih =>
    rw [List.foldl_cons]
    apply ih
    unfold keysStep
    by_cases hmem : r.txHash ∈ acc
    · simpa [hmem] using h
    · simp only [if_neg hmem]
      exact List.Nodup.append h (List.nodup_singleton _)
        (fun x hx hx1 => hmem ((List.mem_singleton.mp hx1) ▸ hx))

theorem mem_keysInOrder (recs : List Row) (a : String) :
    a ∈ keysInOrder recs ↔ ∃ r ∈ recs, r.txHash = a := by
  simp [keysInOrder, keysStep_foldl_mem]

theorem keysInOrder_nodup (recs : List Row) : (keysInOrder recs).Nodup :=
  keysStep_foldl_nodup recs [] (List.nodup_nil)

/-! ## The master characterization of one run

The group loop is tracked by the set of already-processed transaction
hashes: after processing `done`, every stored row of a processed
qualifying group has been rewritten by `rowTransform` and every other row
is untouched. -/

/-- The stored rows after the group loop has processed the hashes in
`done`. -/
def transformUpTo (env : Env) (o : Oracle) (wallet : String)
    (recs : List Row) (p : ℚ) (done : List String) (r : Row) : Row :=
  if r.txHash ∈ done then rowTransform env o wallet recs p r else r

theorem transformUpTo_id (env : Env) (o : Oracle) (wallet : String)
    (recs : List Row) (p : ℚ) (done : List String) (r : Row) :
    (transformUpTo env o wallet recs p done r).id = r.id := by
  unfold transformUpTo
  split
  · exact (basePreserving_rowTransform env o wallet recs p).id r
  · rfl

theorem updateRows_map_of_id (db : List Row) (g : Row → Row)
    (hg : ∀ r, (g r).id = r.id) (ids : List Nat) (f : Row → Row) :
    updateRows (db.map g) ids f =
      db.map (fun r => if r.id ∈ ids then f (g r) else g r) := by
  simp only [updateRows, List.map_map]
  apply List.map_congr_left
  intro r _
  simp [Function.comp, hg]

theorem mem_outIds_iff {recs db : List Row} (hperm : recs.Perm db)
    (hnd : (db.map (fun r => r.id)).Nodup) {r : Row} (hr : r ∈ db)
    (wallet h : String) :
    (r.id ∈ (outgoingLegs wallet (groupRows recs h)).map (fun x => x.id)) ↔
      (r.txHash = h ∧ isOutgoing wallet r = true) := by
  unfold outgoingLegs groupRows
  rw [List.filter_filter, mem_filter_ids_iff hperm hnd hr]
  simp [and_comm]

theorem mem_inIds_iff {recs db : List Row} (hperm : recs.Perm db)
    (hnd : (db.map (fun r => r.id)).Nodup) {r : Row} (hr : r ∈ db)
    (wallet h : String) :
    (r.id ∈ (incomingLegs wallet (groupRows recs h)).map (fun x => x.id)) ↔
      (r.txHash = h ∧ isIncoming wallet r = true) := by
  unfold incomingLegs groupRows
  rw [List.filter_filter, mem_filter_ids_iff hperm hnd hr]
  simp [and_comm]

theorem stepGroup_db (env : Env) (o : Oracle) (wallet : String)
    {recs db : List Row} (hperm : recs.Perm db)
    (hnd : (db.map (fun r => r.id)).Nodup) (p : ℚ)
    (done : List String) (h : String) (hfresh : h ∉ done) (s : RunState)
    (hs : s.db = db.map (transformUpTo env o wallet recs p done)) :
    (stepGroup env o wallet recs p s h).db =
      db.map (transformUpTo env o wallet recs p (done ++ [h])) := by
  by_cases hq : qualifies wallet recs h = true
  · -- qualifying group: both partitions non-empty, rows get written
    have hguard : ((outgoingLegs wallet (groupRows recs h)).isEmpty
        || (incomingLegs wallet (groupRows recs h)).isEmpty) = false := by
      revert hq
      unfold qualifies
      cases (outgoingLegs wallet (groupRows recs h)).isEmpty <;>
        cases (incomingLegs wallet (groupRows recs h)).isEmpty <;> simp
    have g1id : ∀ r : Row,
        ((fun x : Row =>
          if x.id ∈ (outgoingLegs wallet (groupRows recs h)).map
              (fun y => y.id) then
            ({ transformUpTo env o wallet recs p done x with isSwap := true } : Row)
          else transformUpTo env o wallet recs p done x) r).id = r.id := by
      intro r
      by_cases hc : r.id ∈ (outgoingLegs wallet (groupRows recs h)).map
          (fun y => y.id) <;>
        simp [hc, transformUpTo_id]
    simp only [stepGroup, hguard, Bool.false_eq_true, if_false]
    unfold enrichIncoming markOutgoing
    rw [hs, updateRows_map_of_id db _ (transformUpTo_id env o wallet recs p done),
      updateRows_map_of_id db _ g1id]
    apply List.map_congr_left
    intro r hr
    by_cases htx : r.txHash = h
    · have hdone : r.txHash ∉ done := htx ▸ hfresh
      by_cases hin : isIncoming wallet r = true <;>
        by_cases hout : isOutgoing wallet r = true <;>
          simp [mem_inIds_iff hperm hnd hr wallet h,
            mem_outIds_iff hperm hnd hr wallet h, htx, hin, hout, hdone,
            hfresh, transformUpTo, rowTransform, groupEnrichment, hq]
    · simp [mem_inIds_iff hperm hnd hr wallet h,
        mem_outIds_iff hperm hnd hr wallet h, htx, transformUpTo]
  · -- non-qualifying group: skipped, nothing changes
    have hguard : ((outgoingLegs wallet (groupRows recs h)).isEmpty
        || (incomingLegs wallet (groupRows recs h)).isEmpty) = true := by
      revert hq
      unfold qualifies
      cases (outgoingLegs wallet (groupRows recs h)).isEmpty <;>
        cases (incomingLegs wallet (groupRows recs h)).isEmpty <;> simp
    simp only [stepGroup, hguard, if_true]
    rw [hs]
    apply List.map_congr_left
    intro r hr
    by_cases htx : r.txHash = h
    · have hdone : r.txHash ∉ done := htx ▸ hfresh
      simp [transformUpTo, htx, hdone, hfresh, rowTransform, hq]
    · simp [transformUpTo, htx]

theorem foldl_stepGroup_db (env : Env) (o : Oracle) (wallet : String)
    {recs db : List Row} (hperm : recs.Perm db)
    (hnd : (db.map (fun r => r.id)).Nodup) (p : ℚ)
    (ks done : List String) (hdisj : ∀ k ∈ ks, k ∉ done) (hknd : ks.Nodup)
    (s : RunState)
    (hs : s.db = db.map (transformUpTo env o wallet recs p done)) :
    (ks.foldl (stepGroup env o wallet recs p) s).db =
      db.map (transformUpTo env o wallet recs p (done ++ ks)) := by
  induction ks generalizing s done with
  | nil => simpa using hs
  | cons k ks ih =>
    rw [List.foldl_cons]
    have h1 := stepGroup_db env o wallet hperm hnd p done k
      (hdisj k (List.mem_cons_self ..)) s hs
    have h2 := ih (done ++ [k])
      (fun k' hk' hk'mem => by
        rcases List.mem_append.mp hk'mem with hc | hc
        · exact hdisj k' (List.mem_cons_of_mem k hk') hc
        · rcases List.mem_singleton.mp hc with rfl
          exact (List.nodup_cons.mp hknd).1 hk')
      (List.nodup_cons.mp hknd).2
      (stepGroup env o wallet recs p s k) h1
    simpa [List.append_assoc] using h2

theorem map_transformUpTo_nil (env : Env) (o : Oracle) (wallet : String)
    (recs : List Row) (p : ℚ) (db : List Row) :
    db.map (transformUpTo env o wallet recs p []) = db := by
  conv_rhs => rw [← List.map_id db]
  apply List.map_congr_left
  intro r _
  simp [transformUpTo]

/-- Master characterization: a successful run with unique row ids rewrites
every stored row by `rowTransform` (and leaves everything else of the
store alone). -/
theorem analyze_db_eq {env : Env} {o : Oracle} {wallet : String}
    {db : List Row} {sum : Summary} {db' : List Row} {log : List Query}
    (hnd : (db.map (fun r => r.id)).Nodup)
    (hok : analyze env o wallet db = .ok (sum, db', log)) :
    db' = db.map (rowTransform env o wallet (sortByTs db) sum.btcPriceCurrent) := by
  have hperm : (sortByTs db).Perm db := List.perm_insertionSort rowLe db
  simp only [analyze] at hok
  by_cases hemp : (sortByTs db).isEmpty
  · rw [if_pos hemp] at hok
    have hdbnil : db = [] := by
      have : (sortByTs db).length = db.length := hperm.length_eq
      rcases db with _ | ⟨r, rest⟩
      · rfl
      · rw [List.isEmpty_iff] at hemp
        rw [hemp] at this
        simp at this
    rw [Except.ok.injEq, Prod.mk.injEq, Prod.mk.injEq] at hok
    obtain ⟨hsum, hdb, hlog⟩ := hok
    subst hdbnil
    simp [← hdb]
  · rw [if_neg hemp] at hok
    cases hcp : o.currentPrice "bitcoin" with
    | error e => rw [hcp] at hok; exact absurd hok (by simp)
    | ok pc =>
      rw [hcp] at hok
      rw [Except.ok.injEq, Prod.mk.injEq, Prod.mk.injEq] at hok
      obtain ⟨hsum, hdb, hlog⟩ := hok
      have hfold := foldl_stepGroup_db env o wallet hperm hnd pc
        (keysInOrder (sortByTs db)) [] (fun k _ hk => by simp at hk)
        (keysInOrder_nodup (sortByTs db))
        ⟨db, 0, 0, [Query.currentPrice "bitcoin"]⟩
        (by simpa using (map_transformUpTo_nil env o wallet (sortByTs db) pc db).symm)
      rw [List.nil_append] at hfold
      rw [← hdb, hfold, ← hsum]
      apply List.map_congr_left
      intro r hr
      unfold transformUpTo
      rw [if_pos ((mem_keysInOrder (sortByTs db) r.txHash).mpr
        ⟨r, hperm.mem_iff.mpr hr, rfl⟩)]

/-! ## Congruence: the analysis only reads identity columns

A second pass over rows rewritten by a `BasePreserving` function computes
exactly the same grouping, classification, aggregation and valuation. -/

theorem basePreserving_applyEnrichment (e : Enrichment) :
    BasePreserving (applyEnrichment e) := by
  constructor <;> (intro r; rfl)

theorem basePreserving_mark :
    BasePreserving (fun r : Row => { r with isSwap := true }) := by
  constructor <;> (intro r; rfl)

theorem isIncoming_congr {g : Row → Row} (hg : BasePreserving g)
    (wallet : String) (r : Row) :
    isIncoming wallet (g r) = isIncoming wallet r := by
  unfold isIncoming
  rw [hg.toAddress]

theorem isOutgoing_congr {g : Row → Row} (hg : BasePreserving g)
    (wallet : String) (r : Row) :
    isOutgoing wallet (g r) = isOutgoing wallet r := by
  unfold isOutgoing
  rw [hg.fromAddress]

theorem tsLe_congr {g : Row → Row} (hg : BasePreserving g) (a b : Row) :
    tsLe (g a) (g b) = tsLe a b := by
  unfold tsLe
  rw [hg.blockTimestamp a, hg.blockTimestamp b]

theorem orderedInsert_map {g : Row → Row} (hg : BasePreserving g) (a : Row)
    (l : List Row) :
    List.orderedInsert rowLe (g a) (l.map g) =
      (List.orderedInsert rowLe a l).map g := by
  induction l with
  | nil => simp
  | cons b l ih =>
    simp only [List.map_cons, List.orderedInsert]
    have hiff : rowLe (g a) (g b) ↔ rowLe a b := by
      unfold rowLe
      rw [tsLe_congr hg]
    by_cases hc : rowLe a b
    · rw [if_pos (hiff.mpr hc), if_pos hc]
      simp
    · rw [if_neg (fun hcc => hc (hiff.mp hcc)), if_neg hc]
      simp [ih]

theorem sortByTs_map {g : Row → Row} (hg : BasePreserving g) (l : List Row) :
    sortByTs (l.map g) = (sortByTs l).map g := by
  unfold sortByTs
  induction l with
  | nil => simp
  | cons a l ih =>
    simp only [List.map_cons, List.insertionSort, ih, orderedInsert_map hg]

theorem keysInOrder_map {g : Row → Row} (hg : BasePreserving g)
    (l : List Row) : keysInOrder (l.map g) = keysInOrder l := by
  unfold keysInOrder
  rw [List.foldl_map]
  congr 1
  funext acc r
  unfold keysStep
  rw [hg.txHash]

theorem groupRows_map {g : Row → Row} (hg : BasePreserving g) (l : List Row)
    (h : String) : groupRows (l.map g) h = (groupRows l h).map g := by
  unfold groupRows
  rw [List.filter_map]
  congr 1
  apply List.filter_congr
  intro r _
  simp [Function.comp, hg.txHash]

theorem outgoingLegs_map {g : Row → Row} (hg : BasePreserving g)
    (wallet : String) (l : List Row) :
    outgoingLegs wallet (l.map g) = (outgoingLegs wallet l).map g := by
  unfold outgoingLegs
  rw [List.filter_map]
  congr 1
  apply List.filter_congr
  intro r _
  simp [Function.comp, isOutgoing_congr hg]

theorem incomingLegs_map {g : Row → Row} (hg : BasePreserving g)
    (wallet : String) (l : List Row) :
    incomingLegs wallet (l.map g) = (incomingLegs wallet l).map g := by
  unfold incomingLegs
  rw [List.filter_map]
  congr 1
  apply List.filter_congr
  intro r _
  simp [Function.comp, isIncoming_congr hg]

theorem txTimestamp_map {g : Row → Row} (hg : BasePreserving g) (env : Env)
    (l : List Row) : txTimestamp env (l.map g) = txTimestamp env l := by
  induction l with
  | nil => rfl
  | cons r l ih =>
    simp only [List.map_cons, txTimestamp, hg.blockTimestamp]
    cases parseTimestampField env r.blockTimestamp with
    | none => simpa using ih
    | some t => rfl

theorem buildAgg_map {g : Row → Row} (hg : BasePreserving g) (l : List Row) :
    buildAgg (l.map g) = buildAgg l := by
  unfold buildAgg
  rw [List.foldl_map]
  congr 1
  funext agg r
  unfold aggStep
  rw [hg.value, hg.asset, hg.contractAddress, hg.chain]

theorem buildSpentComponents_map {g : Row → Row} (hg : BasePreserving g)
    (o : Oracle) (l : List Row) (ts : Int) :
    buildSpentComponents o (l.map g) ts = buildSpentComponents o l ts := by
  unfold buildSpentComponents
  rw [buildAgg_map hg]

theorem isEmpty_map {α β : Type} (f : α → β) (l : List α) :
    (l.map f).isEmpty = l.isEmpty := by
  cases l <;> rfl

theorem calcGroup_map {g : Row → Row} (hg : BasePreserving g) (env : Env)
    (o : Oracle) (wallet : String) (l : List Row) (h : String) :
    calcGroup env o wallet (l.map g) h = calcGroup env o wallet l h := by
  simp only [calcGroup, groupRows_map hg, outgoingLegs_map hg,
    txTimestamp_map hg, buildSpentComponents_map hg]

theorem qualifies_map {g : Row → Row} (hg : BasePreserving g)
    (wallet : String) (l : List Row) (h : String) :
    qualifies wallet (l.map g) h = qualifies wallet l h := by
  simp only [qualifies, groupRows_map hg, outgoingLegs_map hg,
    incomingLegs_map hg, isEmpty_map]

theorem groupEnrichment_map {g : Row → Row} (hg : BasePreserving g)
    (env : Env) (o : Oracle) (wallet : String) (l : List Row) (p : ℚ)
    (h : String) :
    groupEnrichment env o wallet (l.map g) p h =
      groupEnrichment env o wallet l p h := by
  unfold groupEnrichment
  rw [calcGroup_map hg]

theorem rowTransform_map {g : Row → Row} (hg : BasePreserving g) (env : Env)
    (o : Oracle) (wallet : String) (l : List Row) (p : ℚ) (x : Row) :
    rowTransform env o wallet (l.map g) p x =
      rowTransform env o wallet l p x := by
  unfold rowTransform
  rw [qualifies_map hg, groupEnrichment_map hg]

/-! ## Idempotence of the per-row transform -/

theorem rowTransform_eval_nonqual {env : Env} {o : Oracle} {wallet : String}
    {recs : List Row} {p : ℚ} {r : Row}
    (hq : qualifies wallet recs r.txHash = false) :
    rowTransform env o wallet recs p r = r := by
  unfold rowTransform
  rw [hq]
  simp

theorem rowTransform_eval_incoming {env : Env} {o : Oracle} {wallet : String}
    {recs : List Row} {p : ℚ} {r : Row}
    (hq : qualifies wallet recs r.txHash = true)
    (hin : isIncoming wallet r = true) (hout : isOutgoing wallet r = true) :
    rowTransform env o wallet recs p r =
      applyEnrichment (groupEnrichment env o wallet recs p r.txHash)
        { r with isSwap := true } := by
  unfold rowTransform
  simp [hq, hin, hout]

theorem rowTransform_eval_incoming_only {env : Env} {o : Oracle}
    {wallet : String} {recs : List Row} {p : ℚ} {r : Row}
    (hq : qualifies wallet recs r.txHash = true)
    (hin : isIncoming wallet r = true) (hout : isOutgoing wallet r = false) :
    rowTransform env o wallet recs p r =
      applyEnrichment (groupEnrichment env o wallet recs p r.txHash) r := by
  unfold rowTransform
  simp [hq, hin, hout]

theorem rowTransform_eval_outgoing_only {env : Env} {o : Oracle}
    {wallet : String} {recs : List Row} {p : ℚ} {r : Row}
    (hq : qualifies wallet recs r.txHash = true)
    (hin : isIncoming wallet r = false) (hout : isOutgoing wallet r = true) :
    rowTransform env o wallet recs p r = { r with isSwap := true } := by
  unfold rowTransform
  simp [hq, hin, hout]

theorem rowTransform_eval_neither {env : Env} {o : Oracle} {wallet : String}
    {recs : List Row} {p : ℚ} {r : Row}
    (hq : qualifies wallet recs r.txHash = true)
    (hin : isIncoming wallet r = false) (hout : isOutgoing wallet r = false) :
    rowTransform env o wallet recs p r = r := by
  unfold rowTransform
  simp [hq, hin, hout]

theorem rowTransform_idem (env : Env) (o : Oracle) (wallet : String)
    (recs : List Row) (p : ℚ) (r : Row) :
    rowTransform env o wallet recs p (rowTransform env o wallet recs p r) =
      rowTransform env o wallet recs p r := by
  by_cases hq : qualifies wallet recs r.txHash = true
  · cases hin : isIncoming wallet r with
    | true =>
      cases hout : isOutgoing wallet r with
      | true =>
        rw [rowTransform_eval_incoming hq hin hout]
        rw [rowTransform_eval_incoming
          (show qualifies wallet recs
            (applyEnrichment (groupEnrichment env o wallet recs p r.txHash)
              { r with isSwap := true }).txHash = true from hq)
          (show isIncoming wallet
            (applyEnrichment (groupEnrichment env o wallet recs p r.txHash)
              { r with isSwap := true }) = true from hin)
          (show isOutgoing wallet
            (applyEnrichment (groupEnrichment env o wallet recs p r.txHash)
              { r with isSwap := true }) = true from hout)]
        exact applyEnrichment_eq_of_base _ rfl rfl rfl rfl rfl rfl rfl rfl rfl rfl
      | false =>
        rw [rowTransform_eval_incoming_only hq hin hout]
        rw [rowTransform_eval_incoming_only
          (show qualifies wallet recs
            (applyEnrichment (groupEnrichment env o wallet recs p r.txHash)
              r).txHash = true from hq)
          (show isIncoming wallet
            (applyEnrichment (groupEnrichment env o wallet recs p r.txHash)
              r) = true from hin)
          (show isOutgoing wallet
            (applyEnrichment (groupEnrichment env o wallet recs p r.txHash)
              r) = false from hout)]
        exact applyEnrichment_eq_of_base _ rfl rfl rfl rfl rfl rfl rfl rfl rfl rfl
    | false =>
      cases hout : isOutgoing wallet r with
      | true =>
        rw [rowTransform_eval_outgoing_only hq hin hout]
        rw [rowTransform_eval_outgoing_only
          (show qualifies wallet recs
            ({ r with isSwap := true } : Row).txHash = true from hq)
          (show isIncoming wallet ({ r with isSwap := true } : Row) = false
            from hin)
          (show isOutgoing wallet ({ r with isSwap := true } : Row) = true
            from hout)]
      | false =>
        rw [rowTransform_eval_neither hq hin hout,
          rowTransform_eval_neither hq hin hout]
  · have hq' : qualifies wallet recs r.txHash = false := by
      revert hq
      cases qualifies wallet recs r.txHash <;> simp
    rw [rowTransform_eval_nonqual hq', rowTransform_eval_nonqual hq']

/-! ## Run-level facts -/

theorem analyze_empty (env : Env) (o : Oracle) (wallet : String) :
    analyze env o wallet [] = .ok (zeroSummary, [], []) := rfl

theorem analyze_isOk (env : Env) (o : Oracle) (wallet : String)
    (db : List Row) (p : ℚ) (hp : o.currentPrice "bitcoin" = .ok p) :
    ∃ res, analyze env o wallet db = .ok res := by
  simp only [analyze]
  by_cases hemp : (sortByTs db).isEmpty
  · rw [if_pos hemp]
    exact ⟨_, rfl⟩
  · rw [if_neg hemp, hp]
    exact ⟨_, rfl⟩

theorem sortByTs_ne_nil {db : List Row} (hne : db ≠ []) :
    ¬(sortByTs db).isEmpty := by
  have hlen := (List.perm_insertionSort rowLe db).length_eq
  intro hemp
  rw [List.isEmpty_iff] at hemp
  unfold sortByTs at hemp
  rw [hemp] at hlen
  exact hne (List.length_eq_zero.mp hlen.symm)

theorem analyze_currentPrice_ok {env : Env} {o : Oracle} {wallet : String}
    {db : List Row} {sum : Summary} {db' : List Row} {log : List Query}
    (hne : db ≠ []) (hok : analyze env o wallet db = .ok (sum, db', log)) :
    o.currentPrice "bitcoin" = .ok sum.btcPriceCurrent := by
  simp only [analyze] at hok
  rw [if_neg (sortByTs_ne_nil hne)] at hok
  cases hcp : o.currentPrice "bitcoin" with
  | error e =>
    rw [hcp] at hok
    exact absurd hok (by simp)
  | ok pc =>
    rw [hcp] at hok
    rw [Except.ok.injEq, Prod.mk.injEq, Prod.mk.injEq] at hok
    obtain ⟨hsum, -, -⟩ := hok
    rw [← hsum]

theorem nodup_map_ids {g : Row → Row} (hg : BasePreserving g)
    {db : List Row} (hnd : (db.map (fun r => r.id)).Nodup) :
    ((db.map g).map (fun r => r.id)).Nodup := by
  rw [List.map_map]
  have : (fun r : Row => r.id) ∘ g = fun r : Row => r.id := by
    funext r
    simp [Function.comp, hg.id]
  rw [this]
  exact hnd

/-! ## Claim C4 -/

/-- C4: running `analyze()` a second time against the stored records it
itself produced, with the price oracle returning the same answers,
reproduces exactly the same enrichment field values on every row
(overwrite semantics): the second run maps the store to itself. -/
theorem c4_idempotent {env : Env} {o : Oracle} {wallet : String}
    {db : List Row} {sum : Summary} {db' : List Row} {log : List Query}
    (hnd : (db.map (fun r => r.id)).Nodup)
    (hok : analyze env o wallet db = .ok (sum, db', log)) :
    ∃ sum2 log2, analyze env o wallet db' = .ok (sum2, db', log2) := by
  rcases eq_or_ne db [] with rfl | hne
  · have hnil : db' = [] := by simpa using analyze_db_eq hnd hok
    subst hnil
    exact ⟨zeroSummary, [], analyze_empty env o wallet⟩
  · have hbp := basePreserving_rowTransform env o wallet (sortByTs db)
      sum.btcPriceCurrent
    have hdb' := analyze_db_eq hnd hok
    have hp := analyze_currentPrice_ok hne hok
    have hnd' : (db'.map (fun r => r.id)).Nodup := by
      rw [hdb']
      exact nodup_map_ids hbp hnd
    obtain ⟨⟨sum2, db2, log2⟩, hok2⟩ :=
      analyze_isOk env o wallet db' sum.btcPriceCurrent hp
    have hne' : db' ≠ [] := by
      rw [hdb']
      intro hc
      rw [List.map_eq_nil_iff] at hc
      exact hne hc
    have hp2 := analyze_currentPrice_ok hne' hok2
    have hpc : sum2.btcPriceCurrent = sum.btcPriceCurrent := by
      rw [hp] at hp2
      injection hp2 with h
      exact h.symm
    have hdb2 := analyze_db_eq hnd' hok2
    have hfix : db2 = db' := by
      rw [hdb2]
      have hT2 : ∀ x ∈ db', rowTransform env o wallet (sortByTs db')
          sum2.btcPriceCurrent x =
          rowTransform env o wallet (sortByTs db) sum.btcPriceCurrent x := by
        intro x _
        rw [hpc, hdb', sortByTs_map hbp, rowTransform_map hbp]
      rw [List.map_congr_left hT2]
      conv_lhs => rw [hdb']
      rw [List.map_map]
      conv_rhs => rw [hdb']
      apply List.map_congr_left
      intro r _
      exact rowTransform_idem env o wallet (sortByTs db) sum.btcPriceCurrent r
    exact ⟨sum2, log2, hfix ▸ hok2⟩

/-! ## Per-row consequences of a successful run -/

theorem analyze_row_transform {env : Env} {o : Oracle} {wallet : String}
    {db : List Row} {sum : Summary} {db' : List Row} {log : List Query}
    (hnd : (db.map (fun r => r.id)).Nodup)
    (hok : analyze env o wallet db = .ok (sum, db', log))
    {i : Nat} {r r' : Row} (hi : db[i]? = some r) (hi' : db'[i]? = some r') :
    r' = rowTransform env o wallet (sortByTs db) sum.btcPriceCurrent r := by
  have hdb' := analyze_db_eq hnd hok
  rw [hdb', List.getElem?_map, hi] at hi'
  simpa using hi'.symm

theorem analyze_role_marked {env : Env} {o : Oracle} {wallet : String}
    {db : List Row} {sum : Summary} {db' : List Row} {log : List Query}
    (hnd : (db.map (fun r => r.id)).Nodup)
    (hok : analyze env o wallet db = .ok (sum, db', log))
    {i : Nat} {r r' : Row} (hi : db[i]? = some r) (hi' : db'[i]? = some r')
    (hq : qualifies wallet (sortByTs db) r.txHash = true)
    (hrole : isOutgoing wallet r = true ∨ isIncoming wallet r = true) :
    r'.isSwap = true := by
  rw [analyze_row_transform hnd hok hi hi']
  cases hin : isIncoming wallet r with
  | true =>
    cases hout : isOutgoing wallet r with
    | true => rw [rowTransform_eval_incoming hq hin hout]; rfl
    | false => rw [rowTransform_eval_incoming_only hq hin hout]; rfl
  | false =>
    cases hout : isOutgoing wallet r with
    | true => rw [rowTransform_eval_outgoing_only hq hin hout]
    | false =>
      rcases hrole with hc | hc
      · rw [hout] at hc; cases hc
      · rw [hin] at hc; cases hc

theorem analyze_no_role_unchanged {env : Env} {o : Oracle} {wallet : String}
    {db : List Row} {sum : Summary} {db' : List Row} {log : List Query}
    (hnd : (db.map (fun r => r.id)).Nodup)
    (hok : analyze env o wallet db = .ok (sum, db', log))
    {i : Nat} {r r' : Row} (hi : db[i]? = some r) (hi' : db'[i]? = some r')
    (hcase : qualifies wallet (sortByTs db) r.txHash = false ∨
      (isOutgoing wallet r = false ∧ isIncoming wallet r = false)) :
    r' = r := by
  rw [analyze_row_transform hnd hok hi hi']
  rcases hcase with hq | ⟨hout, hin⟩
  · exact rowTransform_eval_nonqual hq
  · by_cases hq : qualifies wallet (sortByTs db) r.txHash = true
    · exact rowTransform_eval_neither hq hin hout
    · exact rowTransform_eval_nonqual (by
        revert hq
        cases qualifies wallet (sortByTs db) r.txHash <;> simp)

theorem analyze_incoming_row {env : Env} {o : Oracle} {wallet : String}
    {db : List Row} {sum : Summary} {db' : List Row} {log : List Query}
    (hnd : (db.map (fun r => r.id)).Nodup)
    (hok : analyze env o wallet db = .ok (sum, db', log))
    {i : Nat} {r r' : Row} (hi : db[i]? = some r) (hi' : db'[i]? = some r')
    (hq : qualifies wallet (sortByTs db) r.txHash = true)
    (hin : isIncoming wallet r = true) :
    ∃ x, r' = applyEnrichment
      (groupEnrichment env o wallet (sortByTs db) sum.btcPriceCurrent
        r.txHash) x := by
  rw [analyze_row_transform hnd hok hi hi']
  cases hout : isOutgoing wallet r with
  | true => exact ⟨_, by rw [rowTransform_eval_incoming hq hin hout]⟩
  | false => exact ⟨_, by rw [rowTransform_eval_incoming_only hq hin hout]⟩

/-! ## Evaluating a group's enrichment under explicit oracle outcomes -/

theorem groupEnrichment_build_error {env : Env} {o : Oracle} {wallet : String}
    {recs : List Row} {h : String} {msg : String} (p : ℚ)
    (hfail : (buildSpentComponents o (outgoingLegs wallet (groupRows recs h))
      ((txTimestamp env (groupRows recs h)).getD env.now)).1 = .error msg) :
    groupEnrichment env o wallet recs p h =
      { spentAsset := none, spentAmount := none, spentUsd := none,
        btcPriceAtPurchase := none, btcAmount := none,
        btcPriceCurrent := none, btcValueUsd := none } := by
  simp only [groupEnrichment, calcGroup]
  rcases hbs : buildSpentComponents o (outgoingLegs wallet (groupRows recs h))
      ((txTimestamp env (groupRows recs h)).getD env.now) with ⟨res, q1⟩
  rw [hbs] at hfail
  simp only at hfail
  subst hfail
  rfl

theorem groupEnrichment_build_ok_price_pos {env : Env} {o : Oracle}
    {wallet : String} {recs : List Row} {h : String}
    {comps : List SpentComponent} {pp : ℚ} (p : ℚ)
    (hbs : (buildSpentComponents o (outgoingLegs wallet (groupRows recs h))
      ((txTimestamp env (groupRows recs h)).getD env.now)).1 = .ok comps)
    (hne : comps ≠ [])
    (hpp : o.priceAt "bitcoin"
      ((txTimestamp env (groupRows recs h)).getD env.now) = .ok pp)
    (hpos : 0 < pp) :
    groupEnrichment env o wallet recs p h =
      mkEnrichment comps (some ((comps.map SpentComponent.usdValue).sum))
        (some pp) (some ((comps.map SpentComponent.usdValue).sum / pp)) p := by
  simp only [groupEnrichment, calcGroup]
  rcases hsplit : buildSpentComponents o (outgoingLegs wallet (groupRows recs h))
      ((txTimestamp env (groupRows recs h)).getD env.now) with ⟨res, q1⟩
  rw [hsplit] at hbs
  simp only at hbs
  subst hbs
  rw [hpp]
  dsimp only
  rw [if_neg (by simpa using hne), if_pos hpos]

theorem groupEnrichment_build_ok_price_nonpos {env : Env} {o : Oracle}
    {wallet : String} {recs : List Row} {h : String}
    {comps : List SpentComponent} {pp : ℚ} (p : ℚ)
    (hbs : (buildSpentComponents o (outgoingLegs wallet (groupRows recs h))
      ((txTimestamp env (groupRows recs h)).getD env.now)).1 = .ok comps)
    (hne : comps ≠ [])
    (hpp : o.priceAt "bitcoin"
      ((txTimestamp env (groupRows recs h)).getD env.now) = .ok pp)
    (hpos : ¬(0 < pp)) :
    groupEnrichment env o wallet recs p h =
      mkEnrichment comps (some ((comps.map SpentComponent.usdValue).sum))
        (some pp) none p := by
  simp only [groupEnrichment, calcGroup]
  rcases hsplit : buildSpentComponents o (outgoingLegs wallet (groupRows recs h))
      ((txTimestamp env (groupRows recs h)).getD env.now) with ⟨res, q1⟩
  rw [hsplit] at hbs
  simp only at hbs
  subst hbs
  rw [hpp]
  dsimp only
  rw [if_neg (by simpa using hne), if_neg hpos]

theorem groupEnrichment_build_ok_price_error {env : Env} {o : Oracle}
    {wallet : String} {recs : List Row} {h : String}
    {comps : List SpentComponent} {msg : String} (p : ℚ)
    (hbs : (buildSpentComponents o (outgoingLegs wallet (groupRows recs h))
      ((txTimestamp env (groupRows recs h)).getD env.now)).1 = .ok comps)
    (hne : comps ≠ [])
    (hpp : o.priceAt "bitcoin"
      ((txTimestamp env (groupRows recs h)).getD env.now) = .error msg) :
    groupEnrichment env o wallet recs p h =
      mkEnrichment comps (some ((comps.map SpentComponent.usdValue).sum))
        none none p := by
  simp only [groupEnrichment, calcGroup]
  rcases hsplit : buildSpentComponents o (outgoingLegs wallet (groupRows recs h))
      ((txTimestamp env (groupRows recs h)).getD env.now) with ⟨res, q1⟩
  rw [hsplit] at hbs
  simp only at hbs
  subst hbs
  rw [hpp]
  dsimp only
  rw [if_neg (by simpa using hne)]

/-! ## Characterizing the spend aggregation -/

theorem sumAmounts_cons (r : Row) (legs : List Row) (k : SpendKey) :
    sumAmounts (r :: legs) k =
      (if validAmount r = true ∧ (r.asset, r.contractAddress) = k
        then r.value.getD 0 else 0) + sumAmounts legs k := by
  unfold sumAmounts
  rw [List.filter_cons]
  by_cases hval : validAmount r = true ∧ (r.asset, r.contractAddress) = k
  · rw [if_pos (by simp [hval.1, hval.2]), if_pos hval]
    simp
  · rw [if_neg (by simpa using hval), if_neg hval]
    simp

theorem aggStep_amount (agg : SpendAgg) (r : Row) (k : SpendKey) :
    (aggStep agg r).amount k = agg.amount k +
      (if validAmount r = true ∧ (r.asset, r.contractAddress) = k
        then r.value.getD 0 else 0) := by
  unfold aggStep
  cases hv : r.value with
  | none => simp [validAmount, hv]
  | some v =>
    dsimp only
    rcases le_or_lt v 0 with hv0 | hv0
    · rw [if_pos hv0]
      simp [validAmount, hv, not_lt.mpr hv0]
    · rw [if_neg (not_le.mpr hv0)]
      dsimp only
      have hval : validAmount r = true := by simp [validAmount, hv, hv0]
      by_cases hk : k = (r.asset, r.contractAddress)
      · rw [if_pos hk, if_pos ⟨hval, hk.symm⟩]
        simp [hv]
      · rw [if_neg hk, if_neg (fun hc => hk hc.2.symm)]
        simp

theorem aggStep_chain_hit (agg : SpendAgg) (r : Row) (k : SpendKey)
    (hcr : validAmount r = true ∧ (r.asset, r.contractAddress) = k) :
    (aggStep agg r).chain k = r.chain := by
  unfold aggStep
  unfold validAmount at hcr
  cases hv : r.value with
  | none => rw [hv] at hcr; cases hcr.1
  | some v =>
    dsimp only
    rw [hv] at hcr
    dsimp only at hcr
    rcases le_or_lt v 0 with hv0 | hv0
    · rw [decide_eq_true_eq] at hcr
      exact absurd hcr.1 (not_lt.mpr hv0)
    · rw [if_neg (not_le.mpr hv0)]
      dsimp only
      rw [if_pos hcr.2.symm]

theorem aggStep_chain_miss (agg : SpendAgg) (r : Row) (k : SpendKey)
    (hcr : ¬(validAmount r = true ∧ (r.asset, r.contractAddress) = k)) :
    (aggStep agg r).chain k = agg.chain k := by
  unfold aggStep
  cases hv : r.value with
  | none => rfl
  | some v =>
    dsimp only
    rcases le_or_lt v 0 with hv0 | hv0
    · rw [if_pos hv0]
    · rw [if_neg (not_le.mpr hv0)]
      dsimp only
      have hval : validAmount r = true := by simp [validAmount, hv, hv0]
      rw [if_neg (fun hk => hcr ⟨hval, hk.symm⟩)]

theorem foldl_aggStep_amount (legs : List Row) :
    ∀ (agg : SpendAgg) (k : SpendKey),
      (legs.foldl aggStep agg).amount k = agg.amount k + sumAmounts legs k := by
  induction legs with
  | nil =>
    intro agg k
    simp [sumAmounts]
  | cons r legs ih =>
    intro agg k
    rw [List.foldl_cons, ih, sumAmounts_cons, aggStep_amount, add_assoc]

theorem buildAgg_amount (legs : List Row) (k : SpendKey) :
    (buildAgg legs).amount k = sumAmounts legs k := by
  unfold buildAgg
  rw [foldl_aggStep_amount]
  simp [emptyAgg]

theorem foldl_aggStep_keys_mem (legs : List Row) :
    ∀ (agg : SpendAgg) (k : SpendKey),
      k ∈ (legs.foldl aggStep agg).keys ↔ k ∈ agg.keys ∨
        ∃ r ∈ legs, validAmount r = true ∧ (r.asset, r.contractAddress) = k := by
  induction legs with
  | nil => simp
  | cons r legs ih =>
    intro agg k
    have hstep : k ∈ (aggStep agg r).keys ↔ k ∈ agg.keys ∨
        (validAmount r = true ∧ (r.asset, r.contractAddress) = k) := by
      unfold aggStep
      cases hv : r.value with
      | none => simp [validAmount, hv]
      | some v =>
        dsimp only
        rcases le_or_lt v 0 with hv0 | hv0
        · rw [if_pos hv0]
          simp [validAmount, hv, not_lt.mpr hv0]
        · rw [if_neg (not_le.mpr hv0)]
          dsimp only
          have hval : validAmount r = true := by simp [validAmount, hv, hv0]
          by_cases hmem : (r.asset, r.contractAddress) ∈ agg.keys
          · rw [if_pos hmem]
            constructor
            · exact Or.inl
            · rintro (h | ⟨-, hk⟩)
              · exact h
              · exact hk ▸ hmem
          · rw [if_neg hmem]
            simp [hval, List.mem_append, eq_comm]
    rw [List.foldl_cons, ih, hstep]
    constructor
    · rintro ((h | h) | h)
      · exact Or.inl h
      · exact Or.inr ⟨r, List.mem_cons_self .., h⟩
      · obtain ⟨x, hx, hp⟩ := h
        exact Or.inr ⟨x, List.mem_cons_of_mem r hx, hp⟩
    · rintro (h | ⟨x, hx, hp⟩)
      · exact Or.inl (Or.inl h)
      · rcases List.mem_cons.mp hx with rfl | hxl
        · exact Or.inl (Or.inr hp)
        · exact Or.inr ⟨x, hxl, hp⟩

theorem mem_buildAgg_keys (legs : List Row) (k : SpendKey) :
    k ∈ (buildAgg legs).keys ↔
      ∃ r ∈ legs, validAmount r = true ∧ (r.asset, r.contractAddress) = k := by
  unfold buildAgg
  rw [foldl_aggStep_keys_mem]
  simp [emptyAgg]

theorem foldl_aggStep_keys_nodup (legs : List Row) :
    ∀ agg : SpendAgg, agg.keys.Nodup → (legs.foldl aggStep agg).keys.Nodup := by
  induction legs with
  | nil => exact fun _ h => h
  | cons r legs ih =>
    intro agg h
    rw [List.foldl_cons]
    apply ih
    unfold aggStep
    cases hv : r.value with
    | none => exact h
    | some v =>
      dsimp only
      rcases le_or_lt v 0 with hv0 | hv0
      · rw [if_pos hv0]
        exact h
      · rw [if_neg (not_le.mpr hv0)]
        dsimp only
        by_cases hmem : (r.asset, r.contractAddress) ∈ agg.keys
        · rw [if_pos hmem]
          exact h
        · rw [if_neg hmem]
          exact List.Nodup.append h (List.nodup_singleton _)
            (fun x hx hx1 => hmem ((List.mem_singleton.mp hx1) ▸ hx))

theorem buildAgg_keys_nodup (legs : List Row) : (buildAgg legs).keys.Nodup :=
  foldl_aggStep_keys_nodup legs emptyAgg (by simp [emptyAgg])

theorem foldl_aggStep_chain (legs : List Row) :
    ∀ (agg : SpendAgg) (k : SpendKey),
      ((legs.foldl aggStep agg).chain k = agg.chain k ∧
        ∀ r ∈ legs, ¬(validAmount r = true ∧ (r.asset, r.contractAddress) = k)) ∨
      (∃ r ∈ legs, validAmount r = true ∧ (r.asset, r.contractAddress) = k ∧
        (legs.foldl aggStep agg).chain k = r.chain) := by
  induction legs with
  | nil =>
    intro agg k
    exact Or.inl ⟨rfl, by simp⟩
  | cons r legs ih =>
    intro agg k
    rw [List.foldl_cons]
    rcases ih (aggStep agg r) k with ⟨heq, hnone⟩ | ⟨x, hx, hv, hk, hch⟩
    · by_cases hcr : validAmount r = true ∧ (r.asset, r.contractAddress) = k
      · exact Or.inr ⟨r, List.mem_cons_self .., hcr.1, hcr.2,
          by rw [heq, aggStep_chain_hit agg r k hcr]⟩
      · refine Or.inl ⟨by rw [heq, aggStep_chain_miss agg r k hcr], ?_⟩
        intro x hx
        rcases List.mem_cons.mp hx with rfl | hxl
        · exact hcr
        · exact hnone x hxl
    · exact Or.inr ⟨x, List.mem_cons_of_mem r hx, hv, hk, hch⟩

theorem buildAgg_chain_exists {legs : List Row} {k : SpendKey}
    (hk : k ∈ (buildAgg legs).keys) :
    ∃ r ∈ legs, validAmount r = true ∧ (r.asset, r.contractAddress) = k ∧
      (buildAgg legs).chain k = r.chain := by
  rcases foldl_aggStep_chain legs emptyAgg k with ⟨-, hnone⟩ | h
  · exfalso
    rw [mem_buildAgg_keys] at hk
    obtain ⟨r, hr, hv, hkk⟩ := hk
    exact hnone r hr ⟨hv, hkk⟩
  · exact h

/-! ## Characterizing the component-building loop -/

theorem keyComponent_congr {o : Oracle} {agg agg' : SpendAgg} {ts : Int}
    {k : SpendKey} (hch : agg.chain k = agg'.chain k)
    (ham : agg.amount k = agg'.amount k) :
    keyComponent o agg ts k = keyComponent o agg' ts k := by
  unfold keyComponent
  rw [hch, ham]

theorem buildComponentsLoop_ok_forall₂ (o : Oracle) (agg : SpendAgg)
    (ts : Int) :
    ∀ {ks : List SpendKey} {cs : List SpentComponent},
      (buildComponentsLoop o agg ts ks).1 = .ok cs →
      List.Forall₂ (fun k c => keyComponent o agg ts k = some c) ks cs := by
  intro ks
  induction ks with
  | nil =>
    intro cs hok
    simp only [buildComponentsLoop] at hok
    injection hok with h
    rw [← h]
    exact List.Forall₂.nil
  | cons k ks ih =>
    intro cs hok
    simp only [buildComponentsLoop] at hok
    rcases hres : resolveCoinId o (agg.chain k) k.1 k.2 with ⟨res, q1⟩
    rw [hres] at hok
    dsimp only at hok
    cases res with
    | error e => exact absurd hok (by simp)
    | ok coinId =>
      dsimp only at hok
      cases hpr : o.priceAt coinId ts with
      | error e =>
        rw [hpr] at hok
        exact absurd hok (by simp)
      | ok price =>
        rw [hpr] at hok
        dsimp only at hok
        rcases hrec : buildComponentsLoop o agg ts ks with ⟨rest, q2⟩
        rw [hrec] at hok
        dsimp only at hok
        cases rest with
        | error e => exact absurd hok (by simp)
        | ok comps =>
          dsimp only at hok
          injection hok with h
          rw [← h]
          refine List.Forall₂.cons ?_ (ih (by rw [hrec]))
          unfold keyComponent
          rw [hres]
          dsimp only
          rw [hpr]

theorem buildComponentsLoop_ok_of_all (o : Oracle) (agg : SpendAgg)
    (ts : Int) :
    ∀ ks : List SpendKey,
      (∀ k ∈ ks, (keyComponent o agg ts k).isSome = true) →
      (buildComponentsLoop o agg ts ks).1 =
        .ok (ks.map (fun k =>
          (keyComponent o agg ts k).getD ⟨"", 0, 0⟩)) := by
  intro ks
  induction ks with
  | nil => intro _; rfl
  | cons k ks ih =>
    intro hall
    have hk := hall k (List.mem_cons_self ..)
    simp only [buildComponentsLoop]
    rcases hres : resolveCoinId o (agg.chain k) k.1 k.2 with ⟨res, q1⟩
    unfold keyComponent at hk
    rw [hres] at hk
    dsimp only at hk
    cases res with
    | error e => exact absurd hk (by simp)
    | ok coinId =>
      dsimp only at hk ⊢
      cases hpr : o.priceAt coinId ts with
      | error e =>
        rw [hpr] at hk
        exact absurd hk (by simp)
      | ok price =>
        rw [hpr] at hk
        dsimp only
        rcases hrec : buildComponentsLoop o agg ts ks with ⟨rest, q2⟩
        have hrest := ih (fun k' hk' => hall k' (List.mem_cons_of_mem k hk'))
        rw [hrec] at hrest
        dsimp only at hrest
        rw [hrest]
        dsimp only
        have hkc : keyComponent o agg ts k =
            some ⟨k.1.getD "", agg.amount k, price⟩ := by
          unfold keyComponent
          rw [hres]
          dsimp only
          rw [hpr]
        rw [List.map_cons, hkc]
        rfl

theorem forall₂_keyComponent_map {o : Oracle} {agg : SpendAgg} {ts : Int} :
    ∀ {ks : List SpendKey} {cs : List SpentComponent},
      List.Forall₂ (fun k c => keyComponent o agg ts k = some c) ks cs →
      cs = ks.map (fun k => (keyComponent o agg ts k).getD ⟨"", 0, 0⟩) := by
  intro ks cs h
  induction h with
  | nil => rfl
  | cons h1 h2 ih => simp [ih, h1]

theorem groupEnrichment_build_ok_spent_fields {env : Env} {o : Oracle}
    {wallet : String} {recs : List Row} {h : String}
    {comps : List SpentComponent} (p : ℚ)
    (hbs : (buildSpentComponents o (outgoingLegs wallet (groupRows recs h))
      ((txTimestamp env (groupRows recs h)).getD env.now)).1 = .ok comps)
    (hne : comps ≠ []) :
    (groupEnrichment env o wallet recs p h).spentAsset =
      (mkEnrichment comps none none none p).spentAsset ∧
    (groupEnrichment env o wallet recs p h).spentAmount =
      (mkEnrichment comps none none none p).spentAmount ∧
    (groupEnrichment env o wallet recs p h).spentUsd =
      some ((comps.map SpentComponent.usdValue).sum) := by
  cases hpp : o.priceAt "bitcoin"
      ((txTimestamp env (groupRows recs h)).getD env.now) with
  | error msg =>
    rw [groupEnrichment_build_ok_price_error p hbs hne hpp]
    exact ⟨rfl, rfl, rfl⟩
  | ok pp =>
    by_cases hpos : 0 < pp
    · rw [groupEnrichment_build_ok_price_pos p hbs hne hpp hpos]
      exact ⟨rfl, rfl, rfl⟩
    · rw [groupEnrichment_build_ok_price_nonpos p hbs hne hpp hpos]
      exact ⟨rfl, rfl, rfl⟩

/-! ## Claim C1 -/

/-- C1 (amended): for a transaction-hash group whose outgoing and incoming
partitions (relative to the wallet, case-insensitively) are both
non-empty, after `analyze()` every leg of the group that is outgoing or
incoming has `isSwap = true`; a leg of the group in neither partition is
left completely unmodified (contrary to the original claim, it does not
receive `isSwap = true`). -/
theorem c1_group_legs {env : Env} {o : Oracle} {wallet : String}
    {db : List Row} {sum : Summary} {db' : List Row} {log : List Query}
    (hnd : (db.map (fun r => r.id)).Nodup)
    (hok : analyze env o wallet db = .ok (sum, db', log))
    {i : Nat} {r r' : Row} (hi : db[i]? = some r) (hi' : db'[i]? = some r')
    (hq1 : (outgoingLegs wallet (groupRows (sortByTs db) r.txHash)).isEmpty
      = false)
    (hq2 : (incomingLegs wallet (groupRows (sortByTs db) r.txHash)).isEmpty
      = false) :
    ((isOutgoing wallet r = true ∨ isIncoming wallet r = true) →
      r'.isSwap = true) ∧
    ((isOutgoing wallet r = false ∧ isIncoming wallet r = false) →
      r' = r) := by
  have hq : qualifies wallet (sortByTs db) r.txHash = true := by
    simp [qualifies, hq1, hq2]
  exact ⟨fun hrole => analyze_role_marked hnd hok hi hi' hq hrole,
    fun hno => analyze_no_role_unchanged hnd hok hi hi' (Or.inr hno)⟩

/-! ## Claim C3 -/

/-- C3: for a transaction-hash group in which the outgoing partition or
the incoming partition is empty, `analyze()` modifies no field of any leg
of that group: the stored row is returned unchanged. -/
theorem c3_skipped_group_unmodified {env : Env} {o : Oracle}
    {wallet : String} {db : List Row} {sum : Summary} {db' : List Row}
    {log : List Query}
    (hnd : (db.map (fun r => r.id)).Nodup)
    (hok : analyze env o wallet db = .ok (sum, db', log))
    {i : Nat} {r r' : Row} (hi : db[i]? = some r) (hi' : db'[i]? = some r')
    (hq : (outgoingLegs wallet (groupRows (sortByTs db) r.txHash)).isEmpty
        = true ∨
      (incomingLegs wallet (groupRows (sortByTs db) r.txHash)).isEmpty
        = true) :
    r' = r := by
  apply analyze_no_role_unchanged hnd hok hi hi'
  left
  rcases hq with hq | hq <;> simp [qualifies, hq]

/-! ## Claim C2 -/

/-- C2: if building the spent components of a qualifying group fails (a
`CoinGeckoError` from asset-id resolution or price lookup for any spent
component), the whole aggregation is abandoned: the group's outgoing and
incoming legs are still marked `isSwap = true`, its incoming legs carry
no valuation fields at all, and any sibling qualifying group whose own
lookups succeed still receives its full valuation, computed only from its
own legs and oracle answers. -/
theorem c2_partial_failure {env : Env} {o : Oracle} {wallet : String}
    {db : List Row} {sum : Summary} {db' : List Row} {log : List Query}
    {h msg : String}
    (hnd : (db.map (fun r => r.id)).Nodup)
    (hok : analyze env o wallet db = .ok (sum, db', log))
    (hq : qualifies wallet (sortByTs db) h = true)
    (hfail : (buildSpentComponents o
      (outgoingLegs wallet (groupRows (sortByTs db) h))
      ((txTimestamp env (groupRows (sortByTs db) h)).getD env.now)).1
      = .error msg) :
    (∀ i : Nat, ∀ r r' : Row, db[i]? = some r → db'[i]? = some r' →
      r.txHash = h →
      (isOutgoing wallet r = true ∨ isIncoming wallet r = true) →
      r'.isSwap = true) ∧
    (∀ i : Nat, ∀ r r' : Row, db[i]? = some r → db'[i]? = some r' →
      r.txHash = h → isIncoming wallet r = true →
      r'.swapSpentAsset = none ∧ r'.swapSpentAmount = none ∧
      r'.swapSpentUsd = none ∧ r'.swapBtcPriceAtPurchase = none ∧
      r'.swapBtcAmount = none ∧ r'.swapBtcPriceCurrent = none ∧
      r'.swapBtcValueUsd = none) ∧
    (∀ h' : String, ∀ comps : List SpentComponent, ∀ pp : ℚ, h' ≠ h →
      qualifies wallet (sortByTs db) h' = true →
      (buildSpentComponents o
        (outgoingLegs wallet (groupRows (sortByTs db) h'))
        ((txTimestamp env (groupRows (sortByTs db) h')).getD env.now)).1
        = .ok comps →
      comps ≠ [] →
      o.priceAt "bitcoin"
        ((txTimestamp env (groupRows (sortByTs db) h')).getD env.now)
        = .ok pp →
      0 < pp →
      ∀ i : Nat, ∀ r r' : Row, db[i]? = some r → db'[i]? = some r' →
        r.txHash = h' → isIncoming wallet r = true →
        r'.isSwap = true ∧
        r'.swapSpentUsd = some ((comps.map SpentComponent.usdValue).sum) ∧
        r'.swapBtcPriceAtPurchase = some pp ∧
        r'.swapBtcAmount =
          some ((comps.map SpentComponent.usdValue).sum / pp) ∧
        r'.swapBtcPriceCurrent = some sum.btcPriceCurrent ∧
        r'.swapBtcValueUsd =
          some ((comps.map SpentComponent.usdValue).sum / pp *
            sum.btcPriceCurrent)) := by
  refine ⟨?_, ?_, ?_⟩
  · intro i r r' hi hi' htx hrole
    exact analyze_role_marked hnd hok hi hi' (by rw [htx]; exact hq) hrole
  · intro i r r' hi hi' htx hin
    obtain ⟨x, hx⟩ :=
      analyze_incoming_row hnd hok hi hi' (by rw [htx]; exact hq) hin
    rw [hx, htx,
      groupEnrichment_build_error sum.btcPriceCurrent hfail]
    exact ⟨rfl, rfl, rfl, rfl, rfl, rfl, rfl⟩
  · intro h' comps pp hne hq' hbs hcne hpp hpos i r r' hi hi' htx hin
    obtain ⟨x, hx⟩ :=
      analyze_incoming_row hnd hok hi hi' (by rw [htx]; exact hq') hin
    rw [hx, htx,
      groupEnrichment_build_ok_price_pos sum.btcPriceCurrent hbs hcne hpp
        hpos]
    exact ⟨rfl, rfl, rfl, rfl, rfl, rfl⟩

/-! ## Claim C5 -/

/-- C5: for a qualifying group whose spent components were built
successfully (and are non-empty), when the historical BTC price lookup
succeeds with a positive price `pp`, the persisted `swap_btc_amount` on
every incoming leg equals `swap_spent_usd / pp` (exactly, in the rational
model, hence within any rounding tolerance); when the price is
unavailable or non-positive, `swap_btc_amount` is absent while the USD
total is still persisted. -/
theorem c5_ref_asset_amount {env : Env} {o : Oracle} {wallet : String}
    {db : List Row} {sum : Summary} {db' : List Row} {log : List Query}
    {h : String} {comps : List SpentComponent}
    (hnd : (db.map (fun r => r.id)).Nodup)
    (hok : analyze env o wallet db = .ok (sum, db', log))
    (hq : qualifies wallet (sortByTs db) h = true)
    (hbs : (buildSpentComponents o
      (outgoingLegs wallet (groupRows (sortByTs db) h))
      ((txTimestamp env (groupRows (sortByTs db) h)).getD env.now)).1
      = .ok comps)
    (hcne : comps ≠ [])
    {i : Nat} {r r' : Row} (hi : db[i]? = some r) (hi' : db'[i]? = some r')
    (htx : r.txHash = h) (hin : isIncoming wallet r = true) :
    (∀ pp : ℚ, o.priceAt "bitcoin"
        ((txTimestamp env (groupRows (sortByTs db) h)).getD env.now)
        = .ok pp → 0 < pp →
      r'.swapSpentUsd = some ((comps.map SpentComponent.usdValue).sum) ∧
      r'.swapBtcPriceAtPurchase = some pp ∧
      r'.swapBtcAmount =
        some ((comps.map SpentComponent.usdValue).sum / pp)) ∧
    (∀ pp : ℚ, o.priceAt "bitcoin"
        ((txTimestamp env (groupRows (sortByTs db) h)).getD env.now)
        = .ok pp → ¬(0 < pp) →
      r'.swapBtcAmount = none ∧
      r'.swapSpentUsd = some ((comps.map SpentComponent.usdValue).sum)) ∧
    (∀ msg : String, o.priceAt "bitcoin"
        ((txTimestamp env (groupRows (sortByTs db) h)).getD env.now)
        = .error msg →
      r'.swapBtcAmount = none ∧ r'.swapBtcPriceAtPurchase = none ∧
      r'.swapSpentUsd = some ((comps.map SpentComponent.usdValue).sum)) := by
  obtain ⟨x, hx⟩ :=
    analyze_incoming_row hnd hok hi hi' (by rw [htx]; exact hq) hin
  refine ⟨?_, ?_, ?_⟩
  · intro pp hpp hpos
    rw [hx, htx,
      groupEnrichment_build_ok_price_pos sum.btcPriceCurrent hbs hcne hpp
        hpos]
    exact ⟨rfl, rfl, rfl⟩
  · intro pp hpp hpos
    rw [hx, htx,
      groupEnrichment_build_ok_price_nonpos sum.btcPriceCurrent hbs hcne
        hpp hpos]
    exact ⟨rfl, rfl⟩
  · intro msg hpp
    rw [hx, htx,
      groupEnrichment_build_ok_price_error sum.btcPriceCurrent hbs hcne
        hpp]
    exact ⟨rfl, rfl, rfl⟩

/-! ## Claim C6 -/

/-- C6: for a qualifying group with successfully built spent components,
if there is exactly one component the incoming legs' `swap_spent_asset`
equals that component's asset symbol and `swap_spent_amount` equals its
summed amount (the sum of the valid outgoing legs' values for the
component's aggregation key); if there is more than one component,
`swap_spent_asset` is the sentinel `"MULTI"` and `swap_spent_amount` is
absent. -/
theorem c6_spent_asset {env : Env} {o : Oracle} {wallet : String}
    {db : List Row} {sum : Summary} {db' : List Row} {log : List Query}
    {h : String} {comps : List SpentComponent}
    (hnd : (db.map (fun r => r.id)).Nodup)
    (hok : analyze env o wallet db = .ok (sum, db', log))
    (hq : qualifies wallet (sortByTs db) h = true)
    (hbs : (buildSpentComponents o
      (outgoingLegs wallet (groupRows (sortByTs db) h))
      ((txTimestamp env (groupRows (sortByTs db) h)).getD env.now)).1
      = .ok comps)
    {i : Nat} {r r' : Row} (hi : db[i]? = some r) (hi' : db'[i]? = some r')
    (htx : r.txHash = h) (hin : isIncoming wallet r = true) :
    (∀ c : SpentComponent, comps = [c] →
      r'.swapSpentAsset = some c.asset ∧
      r'.swapSpentAmount = some c.amount ∧
      ∃ k : SpendKey,
        (buildAgg (outgoingLegs wallet
          (groupRows (sortByTs db) h))).keys = [k] ∧
        c.amount = sumAmounts
          (outgoingLegs wallet (groupRows (sortByTs db) h)) k ∧
        c.asset = k.1.getD "") ∧
    (2 ≤ comps.length →
      r'.swapSpentAsset = some "MULTI" ∧ r'.swapSpentAmount = none) := by
  obtain ⟨x, hx⟩ :=
    analyze_incoming_row hnd hok hi hi' (by rw [htx]; exact hq) hin
  have henr : comps ≠ [] → ∃ P A,
      groupEnrichment env o wallet (sortByTs db) sum.btcPriceCurrent h =
        mkEnrichment comps
          (some ((comps.map SpentComponent.usdValue).sum)) P A
          sum.btcPriceCurrent := by
    intro hcne
    cases hpp : o.priceAt "bitcoin"
        ((txTimestamp env (groupRows (sortByTs db) h)).getD env.now) with
    | error msg =>
      exact ⟨none, none,
        groupEnrichment_build_ok_price_error _ hbs hcne hpp⟩
    | ok pp =>
      by_cases hpos : 0 < pp
      · exact ⟨some pp, some _,
          groupEnrichment_build_ok_price_pos _ hbs hcne hpp hpos⟩
      · exact ⟨some pp, none,
          groupEnrichment_build_ok_price_nonpos _ hbs hcne hpp hpos⟩
  constructor
  · rintro c rfl
    obtain ⟨P, A, he⟩ := henr (by simp)
    refine ⟨by rw [hx, htx, he]; rfl, by rw [hx, htx, he]; rfl, ?_⟩
    have hbs' : (buildComponentsLoop o
        (buildAgg (outgoingLegs wallet (groupRows (sortByTs db) h)))
        ((txTimestamp env (groupRows (sortByTs db) h)).getD env.now)
        (buildAgg (outgoingLegs wallet
          (groupRows (sortByTs db) h))).keys).1 = .ok [c] := hbs
    have hfa := buildComponentsLoop_ok_forall₂ _ _ _ hbs'
    rw [List.forall₂_cons_right_iff] at hfa
    obtain ⟨k, l', h1, h2, hkeys⟩ := hfa
    rw [List.forall₂_nil_right_iff] at h2
    subst h2
    unfold keyComponent at h1
    cases hres : (resolveCoinId o
        ((buildAgg (outgoingLegs wallet
          (groupRows (sortByTs db) h))).chain k) k.1 k.2).1 with
    | error e =>
      rw [hres] at h1
      exact absurd h1 (by simp)
    | ok coinId =>
      rw [hres] at h1
      dsimp only at h1
      cases hpr2 : o.priceAt coinId
          ((txTimestamp env (groupRows (sortByTs db) h)).getD env.now) with
      | error e =>
        rw [hpr2] at h1
        exact absurd h1 (by simp)
      | ok price =>
        rw [hpr2] at h1
        dsimp only at h1
        injection h1 with h1
        refine ⟨k, hkeys, ?_, ?_⟩
        · rw [← h1]
          exact buildAgg_amount
            (outgoingLegs wallet (groupRows (sortByTs db) h)) k
        · rw [← h1]
  · intro hlen
    rcases comps with - | ⟨c1, - | ⟨c2, cs⟩⟩
    · simp at hlen
    · simp at hlen
    · obtain ⟨P, A, he⟩ := henr (by simp)
      exact ⟨by rw [hx, htx, he]; rfl, by rw [hx, htx, he]; rfl⟩

/-! ## Claim C7: permutation (in)dependence of the cost basis -/

theorem perm_isEmpty {α : Type} {l l' : List α} (hp : l.Perm l') :
    l.isEmpty = l'.isEmpty := by
  have := hp.length_eq
  cases l <;> cases l' <;> simp_all

theorem forall₂_mem_left {α β : Type} {R : α → β → Prop} :
    ∀ {l₁ : List α} {l₂ : List β}, List.Forall₂ R l₁ l₂ →
      ∀ a ∈ l₁, ∃ b ∈ l₂, R a b := by
  intro l₁ l₂ hf
  induction hf with
  | nil => simp
  | cons h1 h2 ih =>
    intro a ha
    rcases List.mem_cons.mp ha with rfl | ha
    · exact ⟨_, List.mem_cons_self .., h1⟩
    · obtain ⟨b, hb, hr⟩ := ih a ha
      exact ⟨b, List.mem_cons_of_mem _ hb, hr⟩

theorem calcGroup_totalUsd (env : Env) (o : Oracle) (wallet : String)
    (recs : List Row) (h : String) :
    (calcGroup env o wallet recs h).totalUsd =
      groupTotalUsd o (outgoingLegs wallet (groupRows recs h))
        ((txTimestamp env (groupRows recs h)).getD env.now) := by
  simp only [calcGroup, groupTotalUsd]
  rcases buildSpentComponents o (outgoingLegs wallet (groupRows recs h))
      ((txTimestamp env (groupRows recs h)).getD env.now) with ⟨res, q1⟩
  cases res <;> dsimp only <;> split <;> rfl

theorem groupTotalUsd_congr {o : Oracle} {out out' : List Row} {ts : Int}
    (hoperm : out.Perm out')
    (hchain : ∀ r ∈ out, ∀ r2 ∈ out, validAmount r = true →
      validAmount r2 = true →
      (r.asset, r.contractAddress) = (r2.asset, r2.contractAddress) →
      r.chain = r2.chain) :
    groupTotalUsd o out ts = groupTotalUsd o out' ts := by
  have hsum : ∀ k, sumAmounts out k = sumAmounts out' k := by
    intro k
    unfold sumAmounts
    exact ((hoperm.filter _).map _).sum_eq
  have hamount : ∀ k, (buildAgg out).amount k = (buildAgg out').amount k := by
    intro k
    rw [buildAgg_amount, buildAgg_amount]
    exact hsum k
  have hmem : ∀ k, k ∈ (buildAgg out).keys ↔ k ∈ (buildAgg out').keys := by
    intro k
    rw [mem_buildAgg_keys, mem_buildAgg_keys]
    constructor <;> rintro ⟨r, hr, hv, hk⟩
    · exact ⟨r, hoperm.mem_iff.mp hr, hv, hk⟩
    · exact ⟨r, hoperm.mem_iff.mpr hr, hv, hk⟩
  have hkperm : (buildAgg out).keys.Perm (buildAgg out').keys :=
    (List.perm_ext_iff_of_nodup (buildAgg_keys_nodup _)
      (buildAgg_keys_nodup _)).mpr hmem
  have hchainEq : ∀ k ∈ (buildAgg out).keys,
      (buildAgg out).chain k = (buildAgg out').chain k := by
    intro k hk
    obtain ⟨r, hr, hv, hks, hc⟩ := buildAgg_chain_exists hk
    obtain ⟨r2, hr2, hv2, hks2, hc2⟩ := buildAgg_chain_exists ((hmem k).mp hk)
    rw [hc, hc2]
    exact hchain r hr r2 (hoperm.mem_iff.mpr hr2) hv hv2 (by rw [hks, hks2])
  have hkc : ∀ k ∈ (buildAgg out).keys,
      keyComponent o (buildAgg out) ts k =
        keyComponent o (buildAgg out') ts k :=
    fun k hk => keyComponent_congr (hchainEq k hk) (hamount k)
  unfold groupTotalUsd buildSpentComponents
  by_cases hall : ∀ k ∈ (buildAgg out).keys,
      (keyComponent o (buildAgg out) ts k).isSome = true
  · have hall' : ∀ k ∈ (buildAgg out').keys,
        (keyComponent o (buildAgg out') ts k).isSome = true := by
      intro k hk
      rw [← hkc k ((hmem k).mpr hk)]
      exact hall k ((hmem k).mpr hk)
    rw [buildComponentsLoop_ok_of_all o (buildAgg out) ts
        (buildAgg out).keys hall,
      buildComponentsLoop_ok_of_all o (buildAgg out') ts
        (buildAgg out').keys hall']
    dsimp only
    rw [isEmpty_map, isEmpty_map, perm_isEmpty hkperm]
    by_cases hemp : (buildAgg out').keys.isEmpty = true
    · rw [if_pos hemp, if_pos hemp]
    · rw [if_neg hemp, if_neg hemp]
      congr 1
      rw [List.map_map, List.map_map]
      have hcongr : (buildAgg out).keys.map
          (SpentComponent.usdValue ∘ fun k =>
            (keyComponent o (buildAgg out) ts k).getD ⟨"", 0, 0⟩) =
          (buildAgg out).keys.map
          (SpentComponent.usdValue ∘ fun k =>
            (keyComponent o (buildAgg out') ts k).getD ⟨"", 0, 0⟩) := by
        apply List.map_congr_left
        intro k hk
        simp [Function.comp, hkc k hk]
      rw [hcongr]
      exact (hkperm.map _).sum_eq
  · push_neg at hall
    obtain ⟨k, hk, hnot⟩ := hall
    have herr : ∀ cs, (buildComponentsLoop o (buildAgg out) ts
        (buildAgg out).keys).1 ≠ .ok cs := by
      intro cs hok
      obtain ⟨c, -, hc⟩ :=
        forall₂_mem_left (buildComponentsLoop_ok_forall₂ _ _ _ hok) k hk
      rw [hc] at hnot
      exact hnot rfl
    have herr' : ∀ cs, (buildComponentsLoop o (buildAgg out') ts
        (buildAgg out').keys).1 ≠ .ok cs := by
      intro cs hok
      obtain ⟨c, -, hc⟩ :=
        forall₂_mem_left (buildComponentsLoop_ok_forall₂ _ _ _ hok) k
          ((hmem k).mp hk)
      rw [hkc k hk, hc] at hnot
      exact hnot rfl
    cases hlp : (buildComponentsLoop o (buildAgg out) ts
        (buildAgg out).keys).1 with
    | ok cs => exact absurd hlp (herr cs)
    | error e =>
      cases hlp' : (buildComponentsLoop o (buildAgg out') ts
          (buildAgg out').keys).1 with
      | ok cs => exact absurd hlp' (herr' cs)
      | error e' => rfl

/-- C7 (amended): for *every* permutation of the record order before
grouping, each group's per-(asset, contractAddress) aggregated spent
amount is unchanged (legs with null or non-positive value skipped) —
unconditionally; and when the permutation additionally leaves the group's
reference timestamp unchanged and all valid outgoing legs sharing an
aggregation key lie on a single chain, the group's `spentUsd` is also
identical.  (The original unconditional `spentUsd` claim fails when the
permutation changes the reference timestamp, or changes which chain
`chain_by_key` records for a key — see the counterexample.) -/
theorem c7_order_independence {env : Env} {o : Oracle} {wallet : String}
    {recs recs' : List Row} {h : String}
    (hperm : recs.Perm recs') :
    (∀ k : SpendKey,
      sumAmounts (outgoingLegs wallet (groupRows recs h)) k =
        sumAmounts (outgoingLegs wallet (groupRows recs' h)) k) ∧
    (txTimestamp env (groupRows recs h) =
        txTimestamp env (groupRows recs' h) →
      (∀ r ∈ outgoingLegs wallet (groupRows recs h),
        ∀ r2 ∈ outgoingLegs wallet (groupRows recs h),
        validAmount r = true → validAmount r2 = true →
        (r.asset, r.contractAddress) = (r2.asset, r2.contractAddress) →
        r.chain = r2.chain) →
      spentUsdPerGroup env o wallet recs h =
        spentUsdPerGroup env o wallet recs' h) := by
  have hgperm : (groupRows recs h).Perm (groupRows recs' h) :=
    hperm.filter _
  have hoperm : (outgoingLegs wallet (groupRows recs h)).Perm
      (outgoingLegs wallet (groupRows recs' h)) := hgperm.filter _
  have hiperm : (incomingLegs wallet (groupRows recs h)).Perm
      (incomingLegs wallet (groupRows recs' h)) := hgperm.filter _
  refine ⟨?_, ?_⟩
  · intro k
    unfold sumAmounts
    exact ((hoperm.filter _).map _).sum_eq
  · intro hts hchain
    unfold spentUsdPerGroup
    have hqeq : qualifies wallet recs h = qualifies wallet recs' h := by
      unfold qualifies
      rw [perm_isEmpty hoperm, perm_isEmpty hiperm]
    rw [← hqeq]
    by_cases hq : qualifies wallet recs h = true
    · rw [if_pos hq, if_pos hq, calcGroup_totalUsd, calcGroup_totalUsd,
        ← hts]
      exact groupTotalUsd_congr hoperm hchain
    · rw [if_neg hq, if_neg hq]

/-! ## Claims C8, C9, C10 -/

/-- C8 (amended): a run completes with a summary whenever the wallet is
non-empty and the run-level current-price lookup of the reference asset
succeeds; the per-group oracle endpoints (`priceAt`,
`coinIdByContract`) are arbitrary here, so no per-group valuation failure
can abort the run.  (The original claim fails because the uncaught
`get_current_price` call aborts a run even though neither the wallet nor
the store is at fault — see the counterexample.) -/
theorem c8_run_completes (env : Env) (o : Oracle) (wallet : String)
    (db : List Row) (p : ℚ) (hw : wallet ≠ "")
    (hp : o.currentPrice "bitcoin" = .ok p) :
    ∃ res, runAnalysis env o wallet db = .ok res := by
  unfold runAnalysis
  rw [if_neg hw]
  exact analyze_isOk env o (strLower wallet) db p hp

/-- C9 (amended): supplying an *empty* wallet address makes the run fail
with the constructor's `ValueError` before anything is read — the result
is the same error for every store and every oracle, so no record is read
or modified; non-empty addresses are not validated at all (a malformed
address is accepted — see the counterexample). -/
theorem c9_empty_wallet_fatal (env : Env) (o : Oracle) (db : List Row) :
    runAnalysis env o "" db = .error "wallet_address is required" := by
  unfold runAnalysis
  rw [if_pos rfl]

/-- C10: when the store holds no records, a run returns the summary with
`swaps_detected`, `btc_amount`, `btc_value_usd` and `btc_price_current`
all zero, leaves the store unchanged, and issues no price-oracle call
(the call log is empty). -/
theorem c10_empty_store (env : Env) (o : Oracle) (w : String)
    (hw : w ≠ "") :
    runAnalysis env o w [] = .ok (zeroSummary, [], []) := by
  unfold runAnalysis
  rw [if_neg hw]
  exact analyze_empty env o (strLower w)

/-! ## Counterexamples -/

/-- C1 counterexample: in the fixture store, group `h1` qualifies (both
partitions non-empty), yet after `analyze()` the group's third leg — in
neither partition — still has `isSwap = false`, refuting "every leg in
that group has `isSwap = true`, including legs in neither partition". -/
theorem c1_counterexample :
    (outgoingLegs "0xw" (groupRows (sortByTs dbW) "h1")).isEmpty = false ∧
    (incomingLegs "0xw" (groupRows (sortByTs dbW) "h1")).isEmpty = false ∧
    dbW[2]?.map (fun r => r.txHash) = some "h1" ∧
    analyze envW oW "0xw" dbW = .ok (sumOfW, rowsOfW, logOfW) ∧
    rowsOfW[2]?.map Row.isSwap = some false :=
  ⟨by decide, by decide, by decide, rfl, by decide⟩

/-- C7 counterexample: permuting the record order before grouping changes
`spentUsd` — in fixture A because the group's reference timestamp (the
first parseable timestamp in load order) changes, and in fixture B
because `chain_by_key` records a different chain for the same aggregation
key — so the claim as stated is false. -/
theorem c7_counterexample :
    ([rA1, rA2].Perm [rA2, rA1]) ∧
    spentUsdPerGroup envW o7 "0xw" [rA1, rA2] "g" = some 10 ∧
    spentUsdPerGroup envW o7 "0xw" [rA2, rA1] "g" = some 20 ∧
    ([rB1, rB2, rB3].Perm [rB2, rB1, rB3]) ∧
    spentUsdPerGroup envW o7b "0xw" [rB1, rB2, rB3] "g" = some 10 ∧
    spentUsdPerGroup envW o7b "0xw" [rB2, rB1, rB3] "g" = some 14 :=
  ⟨List.Perm.swap rA2 rA1 [], by decide, by decide,
   List.Perm.swap rB2 rB1 [rB3], by decide, by decide⟩

/-- C8 counterexample: with a non-empty wallet and an intact store, the
run still aborts, because the run-level `get_current_price` call is not
guarded — a price-feed outage is neither an invalid wallet nor an
unavailable store. -/
theorem c8_counterexample :
    ("0xw" ≠ "") ∧
    runAnalysis envW oBad "0xw" [rO] = .error "price feed down" :=
  ⟨by decide, rfl⟩

/-- C9 counterexample: a plainly malformed wallet address is accepted —
the constructor only rejects the empty string — so the run completes
normally instead of raising an error. -/
theorem c9_counterexample :
    runAnalysis envW oW "hello world" [] = .ok (zeroSummary, [], []) := rfl

/-! ## Witnesses -/

/-- Witness for C1: at the fixture store, the neutral leg `rN` of
qualifying group `h1` is returned unchanged and the marking implications
hold for it. -/
theorem c1_witness :
    ((dbW.map (fun r => r.id)).Nodup) ∧
    (((isOutgoing "0xw" rN = true ∨ isIncoming "0xw" rN = true) →
        (rowAtW 2).isSwap = true) ∧
      ((isOutgoing "0xw" rN = false ∧ isIncoming "0xw" rN = false) →
        rowAtW 2 = rN)) :=
  ⟨by decide,
   @c1_group_legs envW oW "0xw" dbW sumOfW rowsOfW logOfW (by decide) rfl
     2 rN (rowAtW 2) rfl rfl (by decide) (by decide)⟩

/-- Witness for C2: group `h2` of the fixture store fails component
building (unresolvable symbol), its legs are still marked with no
valuation, and sibling group `h1` receives full valuation. -/
theorem c2_witness :
    ((dbW.map (fun r => r.id)).Nodup) ∧
    qualifies "0xw" (sortByTs dbW) "h2" = true ∧
    ((rowAtW 3).isSwap = true) ∧
    ((rowAtW 4).isSwap = true ∧ (rowAtW 4).swapSpentUsd = none ∧
      (rowAtW 4).swapBtcAmount = none) ∧
    ((rowAtW 1).isSwap = true ∧ (rowAtW 1).swapSpentUsd = some 20 ∧
      (rowAtW 1).swapBtcAmount = some (1 / 1250)) := by
  have H := @c2_partial_failure envW oW "0xw" dbW sumOfW rowsOfW logOfW
    "h2" "Unable to resolve CoinGecko id for asset" (by decide) rfl
    (by decide) rfl
  refine ⟨by decide, by decide, ?_, ?_, ?_⟩
  · exact H.1 3 rF (rowAtW 3) rfl rfl rfl (Or.inl (by decide))
  · have hfi := H.2.1 4 rFi (rowAtW 4) rfl rfl rfl (by decide)
    exact ⟨H.1 4 rFi (rowAtW 4) rfl rfl rfl (Or.inr (by decide)),
      hfi.2.2.1, hfi.2.2.2.2.1⟩
  · have hsib := H.2.2 "h1" [⟨"ETH", 2, 10⟩] 25000 (by decide) (by decide)
      rfl (by decide) rfl (by decide) 1 rI (rowAtW 1) rfl rfl rfl
      (by decide)
    exact ⟨hsib.1, hsib.2.1, hsib.2.2.2.1⟩

/-- Witness for C3: the incoming-only group `h3` of the fixture store is
left unmodified. -/
theorem c3_witness :
    ((dbW.map (fun r => r.id)).Nodup) ∧
    ((outgoingLegs "0xw" (groupRows (sortByTs dbW) rSkip.txHash)).isEmpty
      = true) ∧
    rowAtW 5 = rSkip :=
  ⟨by decide, by decide,
   @c3_skipped_group_unmodified envW oW "0xw" dbW sumOfW rowsOfW logOfW
     (by decide) rfl 5 rSkip (rowAtW 5) rfl rfl (Or.inl (by decide))⟩

/-- Witness for C4: re-running `analyze()` over the fixture store's own
output reproduces the stored rows unchanged. -/
theorem c4_witness :
    ((dbW.map (fun r => r.id)).Nodup) ∧
    (∃ sum2 log2,
      analyze envW oW "0xw" rowsOfW = .ok (sum2, rowsOfW, log2)) :=
  ⟨by decide,
   @c4_idempotent envW oW "0xw" dbW sumOfW rowsOfW logOfW (by decide) rfl⟩

/-- Witness for C5: group `h1` of the fixture store (one component worth
20 USD, BTC at 25000) gives the incoming leg
`swap_btc_amount = 20 / 25000` alongside the persisted USD total. -/
theorem c5_witness :
    ((dbW.map (fun r => r.id)).Nodup) ∧
    ((rowAtW 1).swapSpentUsd = some 20 ∧
      (rowAtW 1).swapBtcPriceAtPurchase = some 25000 ∧
      (rowAtW 1).swapBtcAmount = some (20 / 25000)) := by
  have H := @c5_ref_asset_amount envW oW "0xw" dbW sumOfW rowsOfW logOfW
    "h1" [⟨"ETH", 2, 10⟩] (by decide) rfl (by decide) rfl (by decide)
    1 rI (rowAtW 1) rfl rfl rfl (by decide)
  exact ⟨by decide, H.1 25000 rfl (by decide)⟩

/-- Witness for C6: group `h1` (single component) records the component's
asset and amount; group `h4` (two components) records the `MULTI`
sentinel and no single amount. -/
theorem c6_witness :
    ((dbW.map (fun r => r.id)).Nodup) ∧
    ((rowAtW 1).swapSpentAsset = some "ETH" ∧
      (rowAtW 1).swapSpentAmount = some 2) ∧
    ((rowAtW 8).swapSpentAsset = some "MULTI" ∧
      (rowAtW 8).swapSpentAmount = none) := by
  have H1 := @c6_spent_asset envW oW "0xw" dbW sumOfW rowsOfW logOfW
    "h1" [⟨"ETH", 2, 10⟩] (by decide) rfl (by decide) rfl
    1 rI (rowAtW 1) rfl rfl rfl (by decide)
  have H2 := @c6_spent_asset envW oW "0xw" dbW sumOfW rowsOfW logOfW
    "h4" [⟨"ETH", 1, 10⟩, ⟨"USDC", 100, 1⟩] (by decide) rfl (by decide)
    rfl 8 rM3 (rowAtW 8) rfl rfl rfl (by decide)
  have h1 := H1.1 ⟨"ETH", 2, 10⟩ rfl
  exact ⟨by decide, ⟨h1.1, h1.2.1⟩, H2.2 (by decide)⟩

/-- Witness for C7 (amended): a permutation of a two-leg group that keeps
the reference timestamp and each key's chain produces the identical
aggregated amount and `spentUsd`. -/
theorem c7_witness :
    (sumAmounts (outgoingLegs "0xw" (groupRows [rO, rI] "h1"))
        (some "ETH", none) =
      sumAmounts (outgoingLegs "0xw" (groupRows [rI, rO] "h1"))
        (some "ETH", none)) ∧
    spentUsdPerGroup envW oW "0xw" [rO, rI] "h1" =
      spentUsdPerGroup envW oW "0xw" [rI, rO] "h1" := by
  have H := @c7_order_independence envW oW "0xw" [rO, rI] [rI, rO] "h1"
    (List.Perm.swap rI rO [])
  exact ⟨H.1 (some "ETH", none), H.2 (by decide) (by decide)⟩

/-- Witness for C8 (amended): any store and a healthy current-price
endpoint give a completed run. -/
theorem c8_witness :
    ("0xW" ≠ "") ∧ ∃ res, runAnalysis envW oW "0xW" dbW = .ok res :=
  ⟨by decide, c8_run_completes envW oW "0xW" dbW 30000 (by decide) rfl⟩

/-- Witness for C10: the empty store returns the zero summary with no
oracle call and no modification. -/
theorem c10_witness :
    ("0xabc" ≠ "") ∧
    runAnalysis envW oW "0xabc" [] = .ok (zeroSummary, [], []) :=
  ⟨by decide, c10_empty_store envW oW "0xabc" (by decide)⟩

end WalletAnalyzer
